import Mathlib

/-!
Verification of the ERTK codegen engine (endpoint compiler and incremental
code generator) against its specification.

The definitions below are a shallow embedding of the TypeScript source:
pure functions become Lean functions, the filesystem-facing one-shot build
controller becomes an explicit state transformer, JavaScript builtins
(String.prototype operations, parseInt, the regular expressions appearing
literally in the source, JS Map and Set with their insertion-order
semantics, JS object property lookup) are modelled by executable Lean
functions on strings and association lists.  Node path helpers
(join/relative/resolve/dirname) are modelled posix-style without
normalisation beyond what the code relies on.  Character case mapping is
modelled for the ASCII range (the only range produced by the \w-based
token scanners of the source).
-/

namespace Ertk

/-- Double-quote character, written via its code point. -/
def dq : Char := Char.ofNat 34

/-- Single-quote character, written via its code point. -/
def sq : Char := Char.ofNat 39

/-- Forward-slash character. -/
def slash : Char := Char.ofNat 47

/-- Suffix test on the character lists of two strings (kernel-reducible
replacement for the iterator-based core function). -/
def strEndsWith (s suffix : String) : Bool :=
  suffix.data.isSuffixOf s.data

/-- Prefix test on the character lists of two strings. -/
def strStartsWith (s p : String) : Bool :=
  p.data.isPrefixOf s.data

/-- Drop the first characters of a string. -/
def strDrop (s : String) (n : Nat) : String :=
  String.mk (s.data.drop n)

/-- Drop the last characters of a string. -/
def strDropRight (s : String) (n : Nat) : String :=
  String.mk (s.data.take (s.data.length - n))

/-- JS String.prototype.trim: remove whitespace from both ends. -/
def strTrim (s : String) : String :=
  String.mk (((s.data.dropWhile (fun c => c.isWhitespace)).reverse.dropWhile
    (fun c => c.isWhitespace)).reverse)

/-- Split a string at every occurrence of a separator character, as the JS
split with a one-character separator (and the splitOn of the source, which
is only applied with the slash separator). -/
def splitChar (sep : Char) : List Char → List String
  | [] => [""]
  | c :: rest =>
    if c = sep then "" :: splitChar sep rest
    else
      match splitChar sep rest with
      | s :: tail => String.mk (c :: s.data) :: tail
      | [] => [String.mk [c]]

/-- Split on slashes. -/
def strSplitSlash (s : String) : List String :=
  splitChar slash s.data

/-- Lexicographic comparison of character lists by code point. -/
def leChars : List Char → List Char → Bool
  | [], _ => true
  | _ :: _, [] => false
  | a :: as, b :: bs => if a = b then leChars as bs else decide (a < b)

/-- Lexicographic string order by code point, modelling the JS string
comparison used by the sorts of the source. -/
def stringLe (a b : String) : Prop :=
  leChars a.data b.data = true

instance : DecidableRel stringLe :=
  fun a b => inferInstanceAs (Decidable (leChars a.data b.data = true))

/-- Model of the JS string sort (Array.prototype.sort default / explicit
string comparison): a stable sort by the standard order on strings.  We use
insertion sort, which is structurally recursive and hence kernel-reducible. -/
def sortStrings (l : List String) : List String :=
  List.insertionSort stringLe l

/-- Stable sort of a list by a string-valued key, modelling
Array.prototype.sort with a string comparator. -/
def sortByKey (key : α → String) (l : List α) : List α :=
  List.insertionSort (fun a b => stringLe (key a) (key b)) l

/-- JS Map.set on an insertion-ordered association list: an existing key
keeps its position and gets the new value, a new key is appended. -/
def setAssoc (l : List (String × β)) (k : String) (v : β) : List (String × β) :=
  match l with
  | [] => [(k, v)]
  | (k₁, v₁) :: rest =>
    if k₁ = k then (k, v) :: rest else (k₁, v₁) :: setAssoc rest k v

/-- Update the value stored at a key, leaving the list unchanged when the
key is absent (models mutating a value obtained from Map.get). -/
def modifyAssoc (l : List (String × β)) (k : String) (f : β → β) : List (String × β) :=
  match l with
  | [] => []
  | (k₁, v₁) :: rest =>
    if k₁ = k then (k₁, f v₁) :: rest else (k₁, v₁) :: modifyAssoc rest k f

/-- JS Set.add on an insertion-ordered list: append if not already present. -/
def addToSet (l : List String) (x : String) : List String :=
  if l.contains x then l else l ++ [x]

/-- The addToMapSet helper of the source: ensure a Set exists for a key in a
Map from import path to set of type names, then add one name to it. -/
def addToMapSet (m : List (String × List String)) (k v : String) :
    List (String × List String) :=
  match List.lookup k m with
  | none => m ++ [(k, [v])]
  | some _ => modifyAssoc m k (fun s => addToSet s v)

/-- Infix containment on character lists. -/
def listIsInfix (needle : List Char) : List Char → Bool
  | [] => needle.isEmpty
  | h :: t => needle.isPrefixOf (h :: t) || listIsInfix needle t

/-- Substring containment, modelling JS String.prototype.includes. -/
def strIncludes (hay needle : String) : Bool :=
  listIsInfix needle.data hay.data

/-- Strip a single trailing ".ts", modelling the replace with the regular
expression matching a literal ".ts" at the end of the string. -/
def stripTs (s : String) : String :=
  if strEndsWith s ".ts" then strDropRight s 3 else s

/-- Replace every backslash by a forward slash (path normalisation applied
to scanned file names). -/
def backslashToSlash (s : String) : String :=
  String.mk (s.data.map (fun c => if c = Char.ofNat 92 then Char.ofNat 47 else c))

/-- Model of node path.join for the two-argument uses in the source: plain
posix concatenation with a separator, degenerating gracefully on empty
parts. -/
def pathJoin (a b : String) : String :=
  if a = "" then b else if b = "" then a else a ++ "/" ++ b

/-- Model of node path.relative for the uses in the source, where the
second argument is the first argument either itself or extended by
segments. -/
def pathRelative (base p : String) : String :=
  if p = base then ""
  else if strStartsWith p (base ++ "/") then strDrop p (base.length + 1)
  else p

/-- Model of node path.dirname (posix). -/
def pathDirname (p : String) : String :=
  let segs := strSplitSlash p
  if segs.length ≤ 1 then "." else String.intercalate "/" segs.dropLast

/-- Model of node path.resolve for a directory and a module specifier:
make the specifier absolute relative to the directory and normalise "." and
".." segments. -/
def pathResolve (dir spec : String) : String :=
  let p := if strStartsWith spec "/" then spec else dir ++ "/" ++ spec
  let segs := (strSplitSlash p).filter (fun s => s ≠ "")
  let segs := segs.foldl
    (fun acc s =>
      if s = "." then acc else if s = ".." then acc.dropLast else acc ++ [s])
    ([] : List String)
  "/" ++ String.intercalate "/" segs

end Ertk

namespace Ertk

/-- The resolved routes sub-configuration consumed by the codegen engine. -/
structure RoutesConfig where
  dir : String
  handlerModule : String
  ignoredRoutes : List String
deriving DecidableEq, Repr

/-- The resolved configuration consumed by the codegen engine (built by
resolveConfig in config.ts; consumed here as an already-resolved value). -/
structure ResolvedConfig where
  root : String
  endpointsDir : String
  generatedDir : String
  manifestPath : String
  pathAlias : String
  aliasRoot : String
  baseUrl : String
  baseQuery : Option String
  crudFilenames : List String
  routes : Option RoutesConfig
deriving DecidableEq, Repr

/-- The default CRUD filename list of config.ts. -/
def DEFAULT_CRUD_FILENAMES : List String :=
  ["get", "list", "create", "update", "delete", "send", "remove", "cancel"]

/-- A sample resolved configuration using the defaults of resolveConfig. -/
def sampleConfig : ResolvedConfig :=
  { root := "/proj"
    endpointsDir := "/proj/src/endpoints"
    generatedDir := "/proj/src/generated"
    manifestPath := "/proj/src/generated/.ertk-manifest.json"
    pathAlias := "@app"
    aliasRoot := "/proj/src"
    baseUrl := "/api"
    baseQuery := none
    crudFilenames := DEFAULT_CRUD_FILENAMES
    routes := none }

/-- Route path derivation, translated from deriveRoutePath: strip the ".ts"
extension, split on "/", pop the final segment as the candidate file name,
copy the remaining parts into the segment list, append the file name unless
it is a configured CRUD filename, and prefix the join with "/api/". -/
def deriveRoutePath (filePath : String) (config : ResolvedConfig) : String :=
  let parts := strSplitSlash (stripTs filePath)
  let fileName := parts.getLastD ""
  let parts := parts.dropLast
  let segments := parts.foldl (fun acc part => acc ++ [part]) ([] : List String)
  let segments :=
    if config.crudFilenames.contains fileName then segments
    else segments ++ [fileName]
  "/api/" ++ String.intercalate "/" segments

/-- Route path derivation as the specification words it: strip the
extension, split into path segments, pop the last segment as the candidate
filename, keep all remaining segments, append the popped filename only if
it is not a member of the CRUD filename set, and prefix the joined segments
with /api/. -/
def routePathOfSpec (relativePath : String) (crudFilenameSet : List String) : String :=
  let segs := strSplitSlash (stripTs relativePath)
  let popped := segs.getLastD ""
  let kept := segs.dropLast
  let final := kept ++ (if crudFilenameSet.contains popped then [] else [popped])
  "/api/" ++ String.intercalate "/" final

theorem foldl_append_singleton (l : List String) (acc : List String) :
    l.foldl (fun a x => a ++ [x]) acc = acc ++ l := by
  induction l generalizing acc with
  | nil => simp
  | cons x xs ih => simp [List.foldl_cons, ih]

end Ertk

namespace Ertk

/-- Digit run to number. -/
def digitsToNat (ds : List Char) : Nat :=
  ds.foldl (fun n c => n * 10 + (c.toNat - 48)) 0

/-- Model of the JS parseInt builtin with radix 10: skip leading
whitespace, read an optional sign, then the longest leading run of decimal
digits; no digits means NaN, modelled as none.  Trailing characters are
ignored, as in JS. -/
def jsParseInt (s : String) : Option Int :=
  let cs := s.data.dropWhile (fun c => c.isWhitespace)
  let signAndRest : Int × List Char :=
    match cs with
    | c :: rest =>
      if c = Char.ofNat 43 then (1, rest)
      else if c = Char.ofNat 45 then (-1, rest)
      else (1, c :: rest)
    | [] => (1, [])
  let ds := signAndRest.2.takeWhile (fun c => c.isDigit)
  if ds.isEmpty then none else some (signAndRest.1 * (digitsToNat ds : Int))

/-- Strip every single- or double-quote character, modelling the replace
with the global quote-class regular expression used on the name literal. -/
def stripQuotes (s : String) : String :=
  String.mk (s.data.filter (fun c => c ≠ dq ∧ c ≠ sq))

end Ertk

namespace Ertk

mutual

/-- A ts-morph expression node, as far as the extractor inspects it: either
an object literal (with its source text and its properties) or any other
node carrying its syntax kind name and source text. -/
inductive TsExpr where
  | objLit (text : String) (props : List TsProp)
  | other (kindName : String) (text : String)

/-- An object-literal member: a plain property assignment, a shorthand
property, a method declaration, or a spread element. -/
inductive TsProp where
  | propAssign (key : String) (init : TsExpr)
  | shorthand (key : String)
  | methodDecl (key : String) (text : String)
  | spread (text : String)

end

/-- Source text of an expression node (getText). -/
def TsExpr.text : TsExpr → String
  | .objLit t _ => t
  | .other _ t => t

/-- The callee of a call expression: either a property access with the
object's source text and the accessed name, or anything else. -/
inductive CalleeAst where
  | propAccess (objectText : String) (name : String)
  | otherCallee

/-- A call expression, as far as the extractor inspects it. -/
structure CallExprAst where
  callee : CalleeAst
  typeArgs : List String
  args : List TsExpr

/-- An import declaration: module specifier plus named imports. -/
structure ImportDeclAst where
  moduleSpecifier : String
  namedImports : List String

/-- A source file, as far as the extractor inspects it. -/
structure SourceFileAst where
  hasDefaultExport : Bool
  calls : List CallExprAst
  importDecls : List ImportDeclAst

/-- Query/mutation classification of an endpoint. -/
inductive EndpointKind where
  | query
  | mutation
deriving DecidableEq, Repr

/-- The ParsedEndpoint descriptor of the source, one extracted endpoint. -/
structure ParsedEndpoint where
  name : String
  method : String
  filePath : String
  importPath : String
  routePath : String
  isProtected : Bool
  hasRequest : Bool
  hasHandler : Bool
  responseType : String
  responseTypeImport : Option String
  argsType : String
  argsTypeImport : Option String
  queryFnSource : String
  endpointType : EndpointKind
  providesTagsSource : Option String
  invalidatesTagsSource : Option String
  optimisticSource : Option String
  maxRetries : Option Int
  typeImports : List (String × List String)
deriving DecidableEq, Repr

/-- Extraction outcome: a descriptor, a skip with a warning (the null plus
console.warn path of the source), or a thrown exception (the OrThrow
helpers of ts-morph). -/
inductive ExtractResult where
  | ok (d : ParsedEndpoint)
  | skip (warning : String)
  | thrown (msg : String)

/-- Whether extraction threw. -/
def ExtractResult.isThrown : ExtractResult → Bool
  | .thrown _ => true
  | _ => false

/-- Whether extraction produced a descriptor. -/
def ExtractResult.isOk : ExtractResult → Bool
  | .ok _ => true
  | _ => false

/-- Retry count of the produced descriptor, when one was produced. -/
def ExtractResult.maxRetriesOf : ExtractResult → Option (Option Int)
  | .ok d => some d.maxRetries
  | _ => none

end Ertk

namespace Ertk

/-- Property lookup on an object literal, modelling getProperty: the first
member whose declared name matches (spread members have no name). -/
def getPropertyObj (props : List TsProp) (key : String) : Option TsProp :=
  props.find? (fun p =>
    match p with
    | .propAssign k _ => k == key
    | .shorthand k => k == key
    | .methodDecl k _ => k == key
    | .spread _ => false)

/-- asKindOrThrow(PropertyAssignment) followed by getInitializerOrThrow:
returns the initializer of a plain property assignment and throws on every
other member form (a property assignment always carries an initializer). -/
def initOfPropAssign : TsProp → Except String TsExpr
  | .propAssign _ init => .ok init
  | _ => .error "asKindOrThrow: node is not a PropertyAssignment"

/-- HTTP method names recognised on the endpoint callee. -/
def isEndpointMethodName (m : String) : Bool :=
  ["get", "post", "put", "patch", "delete"].contains m

/-- Find the first call expression whose callee is a property access of the
literal identifier endpoint with a recognised method name. -/
def findEndpointCall : List CallExprAst → Option (CallExprAst × String)
  | [] => none
  | call :: rest =>
    match call.callee with
    | .propAccess objText mname =>
      if objText == "endpoint" && isEndpointMethodName mname then some (call, mname)
      else findEndpointCall rest
    | .otherCallee => findEndpointCall rest

/-- Name extraction: initializer text with all quote characters stripped;
a missing name property yields the empty string (which the caller treats
as a skip). -/
def extractName (props : List TsProp) : Except String String :=
  match getPropertyObj props "name" with
  | none => .ok ""
  | some p => (initOfPropAssign p).map (fun init => stripQuotes init.text)

/-- The protected flag: defaults to true; an explicit property counts as
false exactly when its initializer text is the literal false. -/
def extractProtected (props : List TsProp) : Except String Bool :=
  match getPropertyObj props "protected" with
  | none => .ok true
  | some p => (initOfPropAssign p).map (fun init => init.text != "false")

/-- Query function source text, empty when the property is absent. -/
def extractQuery (props : List TsProp) : Except String String :=
  match getPropertyObj props "query" with
  | none => .ok ""
  | some p => (initOfPropAssign p).map (fun init => init.text)

/-- The provides/invalidates source fragments, captured only when the tags
initializer is itself an object literal. -/
def extractTags (props : List TsProp) :
    Except String (Option String × Option String) :=
  match getPropertyObj props "tags" with
  | none => .ok (none, none)
  | some p =>
    match initOfPropAssign p with
    | .error m => .error m
    | .ok (.objLit _ tprops) =>
      match
        (match getPropertyObj tprops "provides" with
         | none => Except.ok none
         | some pp => (initOfPropAssign pp).map (fun (i : TsExpr) => some i.text)) with
      | .error m => .error m
      | .ok pv =>
        match
          (match getPropertyObj tprops "invalidates" with
           | none => Except.ok none
           | some ip => (initOfPropAssign ip).map (fun (i : TsExpr) => some i.text)) with
        | .error m => .error m
        | .ok iv => .ok (pv, iv)
    | .ok _ => .ok (none, none)

/-- Optimistic-update source fragment. -/
def extractOptimistic (props : List TsProp) : Except String (Option String) :=
  match getPropertyObj props "optimistic" with
  | none => .ok none
  | some p => (initOfPropAssign p).map (fun init => some init.text)

/-- The retry count: parseInt on the initializer text, retained only when
not NaN and strictly positive. -/
def extractMaxRetries (props : List TsProp) : Except String (Option Int) :=
  match getPropertyObj props "maxRetries" with
  | none => .ok none
  | some p => (initOfPropAssign p).map (fun init =>
      match jsParseInt init.text with
      | some v => if 0 < v then some v else none
      | none => none)

/-- Resolve a module specifier to a canonical alias-rooted path, translated
from resolveToAlias. -/
def resolveToAlias (moduleSpecifier fromFile : String) (config : ResolvedConfig) : String :=
  if strStartsWith moduleSpecifier (config.pathAlias ++ "/") then moduleSpecifier
  else
    let dir := pathDirname fromFile
    let resolved := pathResolve dir moduleSpecifier
    if strStartsWith resolved config.aliasRoot then
      config.pathAlias ++ "/" ++ stripTs (pathRelative config.aliasRoot resolved)
    else moduleSpecifier

/-- Accumulator for the type-import resolution loop. -/
structure TypeImportAcc where
  responseTypeImport : Option String
  argsTypeImport : Option String
  typeImports : List (String × List String)

/-- The type-import resolution loop of parseEndpointFile: for every
named import whose name occurs as a substring of the response/args text,
record the canonical path (later assignments overwrite earlier ones) and
add the name to the aggregate per-path import set. -/
def computeTypeImports (sf : SourceFileAst) (absPath : String)
    (config : ResolvedConfig) (responseType argsType : String) : TypeImportAcc :=
  sf.importDecls.foldl
    (fun acc d =>
      d.namedImports.foldl
        (fun acc importName =>
          let aliasPath := resolveToAlias d.moduleSpecifier absPath config
          let acc :=
            if strIncludes responseType importName then
              { acc with
                responseTypeImport := some aliasPath
                typeImports := addToMapSet acc.typeImports aliasPath importName }
            else acc
          if strIncludes argsType importName then
            { acc with
              argsTypeImport := some aliasPath
              typeImports := addToMapSet acc.typeImports aliasPath importName }
          else acc)
        acc)
    ⟨none, none, []⟩

/-- The descriptor extractor, translated from parseEndpointFile.  The
ts-morph project and file read are replaced by the syntax tree argument. -/
def parseEndpointFile (config : ResolvedConfig) (filePath : String)
    (sf : SourceFileAst) : ExtractResult :=
  let absPath := pathJoin config.endpointsDir filePath
  if !sf.hasDefaultExport then
    .skip ("ERTK: No default export in " ++ filePath ++ ", skipping")
  else
    match findEndpointCall sf.calls with
    | none =>
      .skip ("ERTK: No endpoint.\x7bmethod\x7d() call found in " ++ filePath ++ ", skipping")
    | some (call, method) =>
      let responseType := (call.typeArgs.get? 0).getD "unknown"
      let argsType := (call.typeArgs.get? 1).getD "void"
      match call.args.head? with
      | some (.objLit _ props) =>
        (match extractName props with
         | .error m => .thrown m
         | .ok name =>
           if name = "" then
             .skip ("ERTK: No name property in " ++ filePath ++ ", skipping")
           else
             match extractProtected props with
             | .error m => .thrown m
             | .ok isProtected =>
               let hasRequest := (getPropertyObj props "request").isSome
               let hasHandler := (getPropertyObj props "handler").isSome
               match extractQuery props with
               | .error m => .thrown m
               | .ok queryFnSource =>
                 match extractTags props with
                 | .error m => .thrown m
                 | .ok (providesTagsSource, invalidatesTagsSource) =>
                   match extractOptimistic props with
                   | .error m => .thrown m
                   | .ok optimisticSource =>
                     match extractMaxRetries props with
                     | .error m => .thrown m
                     | .ok maxRetries =>
                       let routePath := deriveRoutePath filePath config
                       let endpointType :=
                         if method = "get" then EndpointKind.query
                         else EndpointKind.mutation
                       let ti := computeTypeImports sf absPath config responseType argsType
                       let endpointsRelative :=
                         pathRelative config.aliasRoot config.endpointsDir
                       let importPath :=
                         config.pathAlias ++ "/" ++ endpointsRelative ++ "/" ++
                           stripTs filePath
                       .ok
                         { name := name
                           method := method
                           filePath := filePath
                           importPath := importPath
                           routePath := routePath
                           isProtected := isProtected
                           hasRequest := hasRequest
                           hasHandler := hasHandler
                           responseType := responseType
                           responseTypeImport := ti.responseTypeImport
                           argsType := argsType
                           argsTypeImport := ti.argsTypeImport
                           queryFnSource := queryFnSource
                           endpointType := endpointType
                           providesTagsSource := providesTagsSource
                           invalidatesTagsSource := invalidatesTagsSource
                           optimisticSource := optimisticSource
                           maxRetries := maxRetries
                           typeImports := ti.typeImports })
      | _ => .skip ("ERTK: Config argument not found in " ++ filePath ++ ", skipping")

end Ertk

namespace Ertk

/-- Word characters of the JS regex class. -/
def isWordChar (c : Char) : Bool :=
  c.isAlphanum || c = Char.ofNat 95

/-- Quote characters of the JS regex class matching either quote. -/
def isQuoteChar (c : Char) : Bool :=
  c = dq || c = sq

/-- Fuel-bounded scanner core; the fuel is an upper bound on the number of
characters left, making the recursion structural. -/
def scanQuotedAux : Nat → List Char → List String
  | 0, _ => []
  | _, [] => []
  | fuel + 1, c :: rest =>
    if isQuoteChar c then
      let run := rest.takeWhile isWordChar
      if run.isEmpty then scanQuotedAux fuel rest
      else
        match (rest.drop run.length).head? with
        | some c₂ =>
          if isQuoteChar c₂ then
            String.mk run :: scanQuotedAux fuel (rest.drop (run.length + 1))
          else scanQuotedAux fuel rest
        | none => scanQuotedAux fuel rest
    else scanQuotedAux fuel rest

/-- All tokens produced by globally matching the regular expression
quote-wordrun-quote, in order, resuming after each match as the JS engine
does (JS allows the two quotes to differ). -/
def scanQuoted (cs : List Char) : List String :=
  scanQuotedAux cs.length cs

/-- The upper-case test applied to a matched token: its first character
compares equal to its own upper-cased image (JS makes this true for
upper-case letters and for every character without a lower/upper case
distinction, such as digits and the underscore). -/
def tagTokenKept (t : String) : Bool :=
  match t.data.head? with
  | some c => c.toUpper == c
  | none => false

/-- Tag-type extraction, translated from extractTagTypes: scan the source
fragment for quoted tokens and add those passing the upper-case test to the
set (the falsy guard also skips an empty fragment). -/
def extractTagTypes (source : Option String) (tags : List String) : List String :=
  match source with
  | none => tags
  | some s =>
    if s = "" then tags
    else
      (scanQuoted s.data).foldl
        (fun acc tok => if tagTokenKept tok then addToSet acc tok else acc) tags

end Ertk

namespace Ertk

/-- Scan for the leftmost occurrence of a literal key such that the
continuation after the key matches, as the JS regex engine scans start
positions left to right. -/
def scanForG (key : List Char) (matchAt : List Char → Option α) :
    List Char → Option α
  | [] => none
  | h :: t =>
    if key.isPrefixOf (h :: t) then
      match matchAt ((h :: t).drop key.length) with
      | some r => some r
      | none => scanForG key matchAt t
    else scanForG key matchAt t

/-- Continuation of the target regex after the literal key: optional
whitespace, a quote, a non-empty word run, a quote; capture the word run. -/
def matchTargetAt (cs : List Char) : Option String :=
  let cs := cs.dropWhile (fun c => c.isWhitespace)
  match cs with
  | c :: rest =>
    if isQuoteChar c then
      let run := rest.takeWhile isWordChar
      if run.isEmpty then none
      else
        match (rest.drop run.length).head? with
        | some c₂ => if isQuoteChar c₂ then some (String.mk run) else none
        | none => none
    else none
  | [] => none

/-- Characters consumed by the function-head alternative of the optimistic
regexes: either a parenthesised parameter list (any characters other than a
closing parenthesis, then the closing parenthesis) or a word run. -/
def matchFnHead (cs : List Char) : Option Nat :=
  match cs with
  | [] => none
  | c :: rest =>
    if c = Char.ofNat 40 then
      let inside := rest.takeWhile (fun x => x ≠ Char.ofNat 41)
      match (rest.drop inside.length).head? with
      | some _ => some (inside.length + 2)
      | none => none
    else
      let run := (c :: rest).takeWhile isWordChar
      if run.isEmpty then none else some run.length

/-- Characters consumed by optional whitespace followed by the arrow. -/
def matchArrow (cs : List Char) : Option Nat :=
  let ws := cs.takeWhile (fun c => c.isWhitespace)
  if ("=>".data).isPrefixOf (cs.drop ws.length) then some (ws.length + 2) else none

/-- Earliest position (relative index) whose suffix satisfies a lookahead. -/
def findLazyEnd (p : List Char → Bool) : List Char → Option Nat
  | [] => if p [] then some 0 else none
  | h :: t => if p (h :: t) then some 0 else (findLazyEnd p t).map (· + 1)

/-- The single-shape args lookahead: a comma, whitespace, then the update
key. -/
def lookaheadUpdate (cs : List Char) : Bool :=
  match cs with
  | c :: rest =>
    c = Char.ofNat 44 &&
      ("update:".data).isPrefixOf (rest.dropWhile (fun x => x.isWhitespace))
  | [] => false

/-- The multi-shape args lookahead: a comma, whitespace, then the update or
condition key. -/
def lookaheadUpdateOrCondition (cs : List Char) : Bool :=
  match cs with
  | c :: rest =>
    c = Char.ofNat 44 &&
      (("update:".data).isPrefixOf (rest.dropWhile (fun x => x.isWhitespace)) ||
       ("condition:".data).isPrefixOf (rest.dropWhile (fun x => x.isWhitespace)))
  | [] => false

/-- The update lookahead: an optional comma, whitespace, then a closing
brace at the very end of the fragment. -/
def lookaheadCloseBraceEnd (cs : List Char) : Bool :=
  let cs :=
    match cs with
    | c :: rest => if c = Char.ofNat 44 then rest else c :: rest
    | [] => []
  (cs.dropWhile (fun x => x.isWhitespace)) = [Char.ofNat 125]

/-- Continuation of an args/update regex after its key: whitespace, a
function head, an arrow, then a lazy body extending to the earliest
position where the given lookahead holds; capture from after the
whitespace to that position. -/
def matchFnBodyAt (look : List Char → Bool) (cs : List Char) : Option String :=
  let ws := cs.takeWhile (fun c => c.isWhitespace)
  let cap := cs.drop ws.length
  match matchFnHead cap with
  | none => none
  | some h =>
    match matchArrow (cap.drop h) with
    | none => none
    | some a =>
      match findLazyEnd look (cap.drop (h + a)) with
      | none => none
      | some b => some (String.mk (cap.take (h + a + b)))

/-- Continuation of the condition regex after its key: whitespace, a
function head, an arrow, then a greedy run of characters other than comma
and closing brace. -/
def matchConditionAt (cs : List Char) : Option String :=
  let ws := cs.takeWhile (fun c => c.isWhitespace)
  let cap := cs.drop ws.length
  match matchFnHead cap with
  | none => none
  | some h =>
    match matchArrow (cap.drop h) with
    | none => none
    | some a =>
      let body := (cap.drop (h + a)).takeWhile
        (fun c => c ≠ Char.ofNat 44 ∧ c ≠ Char.ofNat 125)
      some (String.mk (cap.take (h + a) ++ body))

/-- Continuation of the updates-array regex: whitespace, an opening
bracket, then a greedy capture extending to the last closing bracket of the
fragment. -/
def matchUpdatesAt (cs : List Char) : Option (List Char) :=
  let cs := cs.dropWhile (fun c => c.isWhitespace)
  match cs with
  | c :: rest =>
    if c = Char.ofNat 91 then
      match (rest.reverse.indexOf (Char.ofNat 93)) with
      | j => if rest.contains (Char.ofNat 93) then some (rest.take (rest.length - 1 - j)) else none
    else none
  | [] => none

/-- The brace-depth tokenizer of extractUpdatesArray: accumulate characters
while inside braces and split a new element each time the depth returns to
zero. -/
def splitUpdates (content : List Char) : List String :=
  let step : (Int × List Char × List String) → Char → (Int × List Char × List String) :=
    fun acc c =>
      let depth := acc.1
      let current := acc.2.1
      let updates := acc.2.2
      if c = Char.ofNat 123 then (depth + 1, current ++ [c], updates)
      else if c = Char.ofNat 125 then
        let current := current ++ [c]
        if depth - 1 = 0 then (depth - 1, [], updates ++ [strTrim (String.mk current)])
        else (depth - 1, current, updates)
      else if depth > 0 then (depth, current ++ [c], updates)
      else (depth, current, updates)
  (content.foldl step (0, [], [])).2.2

/-- Translation of extractUpdatesArray: locate the updates array fragment,
tokenize it, and return null when no element was produced. -/
def extractUpdatesArray (source : String) : Option (List String) :=
  match scanForG ("updates:".data) matchUpdatesAt source.data with
  | none => none
  | some content =>
    let updates := splitUpdates content
    if updates.isEmpty then none else some updates

end Ertk

namespace Ertk

/-- JS String.prototype.toUpperCase, modelled for the ASCII range. -/
def jsToUpper (s : String) : String :=
  String.mk (s.data.map Char.toUpper)

/-- The capitalize helper of the source. -/
def capitalize (s : String) : String :=
  match s.data with
  | [] => ""
  | c :: rest => String.mk (c.toUpper :: rest)

/-- Lines emitted for a recognised single-shape optimistic update. -/
def singleShapeLines (target argsFn updateFn : String) : List String :=
  ["\t\t\tasync onQueryStarted(params, \x7b dispatch, queryFulfilled \x7d) \x7b",
   "\t\t\t\tconst patchResult = dispatch(",
   "\t\t\t\t\tapi.util.updateQueryData(\"" ++ target ++ "\", (" ++ argsFn ++
     ")(params), (draft) => \x7b",
   "\t\t\t\t\t\t(" ++ updateFn ++ ")(draft, params);",
   "\t\t\t\t\t\x7d),",
   "\t\t\t\t);",
   "\t\t\t\ttry \x7b await queryFulfilled; \x7d catch \x7b patchResult.undo(); \x7d",
   "\t\t\t\x7d,"]

/-- Lines emitted for one recognised multi-shape update element carrying a
condition. -/
def multiItemCondLines (conditionFn target argsFn updateFn : String) : List String :=
  ["\t\t\t\tif ((" ++ conditionFn ++ ")(params)) \x7b",
   "\t\t\t\t\tpatches.push(",
   "\t\t\t\t\t\tdispatch(",
   "\t\t\t\t\t\t\tapi.util.updateQueryData(\"" ++ target ++ "\", (" ++ argsFn ++
     ")(params), (draft) => \x7b",
   "\t\t\t\t\t\t\t\t(" ++ updateFn ++ ")(draft, params);",
   "\t\t\t\t\t\t\t\x7d),",
   "\t\t\t\t\t\t),",
   "\t\t\t\t\t);",
   "\t\t\t\t\x7d"]

/-- Lines emitted for one recognised multi-shape update element without a
condition. -/
def multiItemPlainLines (target argsFn updateFn : String) : List String :=
  ["\t\t\t\tpatches.push(",
   "\t\t\t\t\tdispatch(",
   "\t\t\t\t\t\tapi.util.updateQueryData(\"" ++ target ++ "\", (" ++ argsFn ++
     ")(params), (draft) => \x7b",
   "\t\t\t\t\t\t\t(" ++ updateFn ++ ")(draft, params);",
   "\t\t\t\t\t\t\x7d),",
   "\t\t\t\t\t),",
   "\t\t\t\t);"]

/-- Lines for one multi-shape element: the three mandatory sub-patterns
must match, the condition sub-pattern is optional. -/
def multiUpdateLines (update : String) : List String :=
  match scanForG ("target:".data) matchTargetAt update.data with
  | none => []
  | some target =>
    match scanForG ("args:".data) (matchFnBodyAt lookaheadUpdateOrCondition) update.data with
    | none => []
    | some argsC =>
      match scanForG ("update:".data) (matchFnBodyAt lookaheadCloseBraceEnd) update.data with
      | none => []
      | some updC =>
        match scanForG ("condition:".data) matchConditionAt update.data with
        | some condC => multiItemCondLines (strTrim condC) target (strTrim argsC) (strTrim updC)
        | none => multiItemPlainLines target (strTrim argsC) (strTrim updC)

/-- Translation of generateOnQueryStarted: the single shape requires all
three sub-patterns, the multi shape always emits the wrapper and processes
whatever elements the tokenizer recovered. -/
def generateOnQueryStarted (ep : ParsedEndpoint) : Option (List String) :=
  match ep.optimisticSource with
  | none => none
  | some src =>
    let isSingle := strIncludes src "target:"
    let isMulti := strIncludes src "updates:"
    let lines : List String :=
      if isSingle && !isMulti then
        match scanForG ("target:".data) matchTargetAt src.data with
        | none => []
        | some target =>
          match scanForG ("args:".data) (matchFnBodyAt lookaheadUpdate) src.data with
          | none => []
          | some argsC =>
            match scanForG ("update:".data) (matchFnBodyAt lookaheadCloseBraceEnd) src.data with
            | none => []
            | some updC => singleShapeLines target (strTrim argsC) (strTrim updC)
      else if isMulti then
        ["\t\t\tasync onQueryStarted(params, \x7b dispatch, queryFulfilled \x7d) \x7b",
         "\t\t\t\tconst patches: Array<\x7b undo: () => void \x7d> = [];"]
        ++ (match extractUpdatesArray src with
            | none => []
            | some updates => updates.foldl (fun acc u => acc ++ multiUpdateLines u) [])
        ++ ["\t\t\t\ttry \x7b await queryFulfilled; \x7d catch \x7b for (const p of patches) p.undo(); \x7d",
            "\t\t\t\x7d,"]
      else []
    if lines.isEmpty then none else some lines

/-- The execution-policy annotation line for a positive retry count. -/
def extraOptionsLine (v : Int) : String :=
  "\t\t\textraOptions: \x7b maxRetries: " ++ toString v ++ " \x7d,"

/-- Translation of generateEndpointDef: the lines of one endpoint
definition inside the endpoints builder object. -/
def generateEndpointDef (ep : ParsedEndpoint) : List String :=
  let builderType :=
    match ep.endpointType with
    | .query => "builder.query"
    | .mutation => "builder.mutation"
  ["\t\t" ++ ep.name ++ ": " ++ builderType ++ "<" ++ ep.responseType ++ ", " ++
     ep.argsType ++ ">(\x7b"]
  ++ (if ep.queryFnSource = "" then []
      else ["\t\t\tquery: " ++ ep.queryFnSource ++ ","])
  ++ (match ep.providesTagsSource with
      | some s => if s = "" then [] else ["\t\t\tprovidesTags: " ++ s ++ ","]
      | none => [])
  ++ (match ep.invalidatesTagsSource with
      | some s => if s = "" then [] else ["\t\t\tinvalidatesTags: " ++ s ++ ","]
      | none => [])
  ++ (match ep.optimisticSource with
      | some s =>
        if s = "" then []
        else
          match generateOnQueryStarted ep with
          | some ls => ls
          | none => []
      | none => [])
  ++ (match ep.maxRetries with
      | some v => if 0 < v then [extraOptionsLine v] else []
      | none => [])
  ++ ["\t\t\x7d),"]

end Ertk

namespace Ertk

/-- Whether some descriptor carries a positive retry count (the code checks
non-null and positive). -/
def hasAnyRetries (endpoints : List ParsedEndpoint) : Bool :=
  endpoints.any (fun ep =>
    match ep.maxRetries with
    | some v => 0 < v
    | none => false)

/-- Aggregate the per-descriptor type-import maps in iteration order. -/
def collectTypeImports (endpoints : List ParsedEndpoint) :
    List (String × List String) :=
  endpoints.foldl
    (fun m ep =>
      ep.typeImports.foldl
        (fun m pts => pts.2.foldl (fun m t => addToMapSet m pts.1 t) m)
        m)
    []

/-- The JS default sort applied to the spread Map entries stringifies each
entry; for an entry of key and Set this is the key followed by a comma and
the fixed Set placeholder.  We model the resulting order by that exact sort
key. -/
def sortedTypeImports (endpoints : List ParsedEndpoint) :
    List (String × List String) :=
  sortByKey (fun pts => pts.1 ++ ",[object Set]") (collectTypeImports endpoints)

/-- All tag types discovered over the descriptor list, in scan order. -/
def collectTagTypes (endpoints : List ParsedEndpoint) : List String :=
  endpoints.foldl
    (fun tags ep =>
      extractTagTypes ep.invalidatesTagsSource
        (extractTagTypes ep.providesTagsSource tags))
    []

/-- The generated header comment line. -/
def generatedHeader : String := "// AUTO-GENERATED by ERTK codegen. Do not edit."

/-- The toolkit import line used when some descriptor retries. -/
def retryImportLine : String :=
  "import \x7b createApi, fetchBaseQuery, retry \x7d from \"@reduxjs/toolkit/query/react\";"

/-- The toolkit import line used when no descriptor retries. -/
def plainImportLine : String :=
  "import \x7b createApi, fetchBaseQuery \x7d from \"@reduxjs/toolkit/query/react\";"

/-- One sorted type-import line. -/
def typeImportLine (importPath : String) (types : List String) : String :=
  "import type \x7b " ++ String.intercalate ", " (sortStrings types) ++
    " \x7d from \"" ++ importPath ++ "\";"

/-- The base transport expression before wrapping: the custom source when
configured, otherwise the default fetch transport. -/
def baseQueryExpr (config : ResolvedConfig) : String :=
  match config.baseQuery with
  | some b => b
  | none => "fetchBaseQuery(\x7b baseUrl: \"" ++ config.baseUrl ++ "\" \x7d)"

/-- The retry-wrapped base transport line with the zero-retry default. -/
def baseQueryRetryLine (config : ResolvedConfig) : String :=
  "\tbaseQuery: retry(" ++ baseQueryExpr config ++ ", \x7b maxRetries: 0 \x7d),"

/-- The unwrapped base transport line. -/
def baseQueryPlainLine (config : ResolvedConfig) : String :=
  "\tbaseQuery: " ++ baseQueryExpr config ++ ","

/-- The base transport line actually emitted. -/
def baseQueryLine (endpoints : List ParsedEndpoint) (config : ResolvedConfig) : String :=
  if hasAnyRetries endpoints then baseQueryRetryLine config
  else baseQueryPlainLine config

/-- The tagTypes line listing the sorted discovered tag types. -/
def tagTypesLine (endpoints : List ParsedEndpoint) : String :=
  "\ttagTypes: [" ++
    String.intercalate ", "
      ((sortStrings (collectTagTypes endpoints)).map
        (fun t => "\"" ++ t ++ "\"")) ++ "],"

/-- One exported hook name. -/
def hookExport (ep : ParsedEndpoint) : String :=
  match ep.endpointType with
  | .query => "use" ++ capitalize ep.name ++ "Query"
  | .mutation => "use" ++ capitalize ep.name ++ "Mutation"

/-- The lines of the generated api.ts artifact, translated from
generateApiTs (the artifact text is their newline join). -/
def apiLines (endpoints : List ParsedEndpoint) (config : ResolvedConfig) :
    List String :=
  [generatedHeader]
  ++ [if hasAnyRetries endpoints then retryImportLine else plainImportLine]
  ++ (sortedTypeImports endpoints).map (fun pts => typeImportLine pts.1 pts.2)
  ++ [""]
  ++ ["export const api = createApi(\x7b", "\treducerPath: \"api\","]
  ++ [baseQueryLine endpoints config]
  ++ [tagTypesLine endpoints,
      "\trefetchOnFocus: false,",
      "\trefetchOnReconnect: true,",
      "\tendpoints: (builder) => (\x7b"]
  ++ endpoints.foldl (fun acc ep => acc ++ generateEndpointDef ep) []
  ++ ["\t\x7d),", "\x7d);", "", "export const \x7b"]
  ++ endpoints.map (fun ep => "\t" ++ hookExport ep ++ ",")
  ++ ["\x7d = api;"]

/-- The api.ts artifact text. -/
def generateApiTs (endpoints : List ParsedEndpoint) (config : ResolvedConfig) :
    String :=
  String.intercalate "\n" (apiLines endpoints config) ++ "\n"

/-- The store.ts artifact text, a fixed template. -/
def generateStoreTs : String :=
  generatedHeader ++ "\n" ++
  "import \x7b configureStore \x7d from \"@reduxjs/toolkit\";\n" ++
  "import \x7b api \x7d from \"./api\";\n\n" ++
  "export const store = configureStore(\x7b\n" ++
  "\treducer: \x7b\n" ++
  "\t\t[api.reducerPath]: api.reducer,\n" ++
  "\t\x7d,\n" ++
  "\tmiddleware: (getDefaultMiddleware) =>\n" ++
  "\t\tgetDefaultMiddleware().concat(api.middleware),\n" ++
  "\x7d);\n\n" ++
  "export type RootState = ReturnType<typeof store.getState>;\n" ++
  "export type AppDispatch = typeof store.dispatch;\n"

/-- The invalidation.ts artifact text, a fixed template. -/
def generateInvalidationTs : String :=
  generatedHeader ++ "\n" ++
  "import \x7b api \x7d from \"./api\";\n\n" ++
  "export function invalidateTags(\n" ++
  "\t...args: Parameters<typeof api.util.invalidateTags>\n" ++
  ") \x7b\n" ++
  "\treturn api.util.invalidateTags(...args);\n" ++
  "\x7d\n\n" ++
  "export const updateQueryData = api.util.updateQueryData;\n"

end Ertk

namespace Ertk

/-- A route group: a route path, its app-router directory, and a Map from
uppercased HTTP method to descriptor. -/
structure RouteGroup where
  routePath : String
  appRouteDir : String
  methods : List (String × ParsedEndpoint)
deriving DecidableEq, Repr

/-- One step of the grouping loop: skip descriptors without a handler,
create the group on first sight of a route, then Map.set the uppercased
method (overwriting any prior entry). -/
def groupStep (rc : RoutesConfig) (groups : List (String × RouteGroup))
    (ep : ParsedEndpoint) : List (String × RouteGroup) :=
  if !ep.hasHandler then groups
  else
    let groups :=
      if (List.lookup ep.routePath groups).isSome then groups
      else
        groups ++
          [(ep.routePath,
            { routePath := ep.routePath
              appRouteDir :=
                pathJoin rc.dir
                  (if strStartsWith ep.routePath "/api/" then strDrop ep.routePath 5
                   else ep.routePath)
              methods := [] })]
    modifyAssoc groups ep.routePath
      (fun g => { g with methods := setAssoc g.methods (jsToUpper ep.method) ep })

/-- Route grouping, translated from groupEndpointsByRoute. -/
def groupEndpointsByRoute (endpoints : List ParsedEndpoint)
    (config : ResolvedConfig) : List (String × RouteGroup) :=
  match config.routes with
  | none => []
  | some rc => endpoints.foldl (groupStep rc) []

/-- Whether a route directory is ignored: its top-level segment relative to
the routes directory is on the configured ignore list. -/
def isIgnoredRoute (routeDir : String) (config : ResolvedConfig) : Bool :=
  match config.routes with
  | none => true
  | some rc =>
    let rel := pathRelative rc.dir routeDir
    let topLevel := (strSplitSlash rel).headD ""
    rc.ignoredRoutes.contains topLevel

/-- The module path a sorted import line was sorted by: the capture of the
from-quote regex, greedy to the last quote, empty when absent. -/
def extractFromPath (line : String) : String :=
  match
    scanForG ("from \"".data)
      (fun cs =>
        if cs.contains dq then
          let j := cs.reverse.indexOf dq
          let len := cs.length - 1 - j
          if len = 0 then none else some (String.mk (cs.take len))
        else none)
      line.data
  with
  | some p => p
  | none => ""

/-- The route.ts artifact text for one group, translated from
generateRouteFile: a header, import lines sorted by imported module path,
then one bound dispatcher export per method in Map order. -/
def generateRouteFile (group : RouteGroup) (config : ResolvedConfig) : String :=
  let handlerModule :=
    match config.routes with
    | some rc => rc.handlerModule
    | none => ""
  let importLines :=
    ("import \x7b createRouteHandler \x7d from \"" ++ handlerModule ++ "\";")
    :: group.methods.map
        (fun mep =>
          "import " ++ mep.2.name ++ "Endpoint from \"" ++ mep.2.importPath ++ "\";")
  let importLines := sortByKey extractFromPath importLines
  String.intercalate "\n"
    ([generatedHeader] ++ importLines ++ [""] ++
      group.methods.map
        (fun mep =>
          "export const " ++ mep.1 ++ " = createRouteHandler(" ++ mep.2.name ++
            "Endpoint);"))
    ++ "\n"

end Ertk

namespace Ertk

/-- The persisted manifest file on disk: missing, unreadable or
non-parseable, or a valid stored map (as the insertion-ordered association
list that JSON round-trips). -/
inductive ManifestFile where
  | absent
  | corrupt
  | valid (m : List (String × String))
deriving DecidableEq, Repr

/-- The filesystem as the one-shot controller observes and mutates it:
whether the endpoints directory exists, its files (relative path to byte
content, in directory-enumeration order), the persisted manifest file and
the generated artifacts on disk. -/
structure FsState where
  endpointsDirExists : Bool
  sources : List (String × String)
  manifestFile : ManifestFile
  disk : List (String × String)
deriving DecidableEq, Repr

/-- Byte content of a source file (files listed by the scan are present). -/
def contentOf (sources : List (String × String)) (p : String) : String :=
  (List.lookup p sources).getD ""

/-- Translation of scanEndpointFiles: an absent directory yields no files;
otherwise the recursive enumeration (the order of the sources list) is
filtered to ".ts" files, backslashes are normalised, and the result is
sorted. -/
def scanEndpointFiles (dirExists : Bool) (sources : List (String × String)) :
    List String :=
  if !dirExists then []
  else
    sortStrings
      (((sources.map Prod.fst).filter (fun f => strEndsWith f ".ts")).map
        backslashToSlash)

/-- Translation of buildManifest: one content hash per scanned file, keyed
by relative path, in scan order.  The hash function (md5 in the source) is
an explicit parameter. -/
def buildManifest (hash : String → String) (sources : List (String × String))
    (files : List String) : List (String × String) :=
  files.map (fun f => (f, hash (contentOf sources f)))

/-- Translation of loadManifest: a valid stored map parses back to itself,
an unreadable or invalid file yields the empty map. -/
def loadManifest : ManifestFile → List (String × String)
  | .valid m => m
  | _ => []

/-- Translation of manifestsMatch: sorted key sets must agree pointwise and
the stored hashes must agree at each key. -/
def manifestsMatch (a b : List (String × String)) : Bool :=
  let keysA := sortStrings (a.map Prod.fst)
  let keysB := sortStrings (b.map Prod.fst)
  keysA.length == keysB.length &&
    (keysA.zip keysB).all
      (fun kk => kk.1 == kk.2 && List.lookup kk.1 a == List.lookup kk.2 b)

/-- Translation of parseAllEndpoints: extract every scanned file in order
into the cache map.  The extractor is passed as an oracle from relative
path and file content to an optional descriptor, standing for
parseEndpointFile over the ts-morph project. -/
def parseAllEndpoints (parse : String → String → Option ParsedEndpoint)
    (sources : List (String × String)) (files : List String) :
    List (String × ParsedEndpoint) :=
  files.foldl
    (fun cache f =>
      match parse f (contentOf sources f) with
      | some p => setAssoc cache f p
      | none => cache)
    []

/-- The artifact list the generate step writes, in write order: api.ts,
store.ts, invalidation.ts, then one route.ts per non-ignored route group
when routes are configured. -/
def artifactList (endpoints : List ParsedEndpoint) (config : ResolvedConfig) :
    List (String × String) :=
  [(pathJoin config.generatedDir "api.ts", generateApiTs endpoints config),
   (pathJoin config.generatedDir "store.ts", generateStoreTs),
   (pathJoin config.generatedDir "invalidation.ts", generateInvalidationTs)]
  ++ (match config.routes with
      | none => []
      | some _ =>
        ((groupEndpointsByRoute endpoints config).map Prod.snd).filterMap
          (fun g =>
            if isIgnoredRoute g.appRouteDir config then none
            else some (pathJoin g.appRouteDir "route.ts", generateRouteFile g config)))

/-- The full generated artifact set as a pure function of the discovered
sources: scan, extract every file through the oracle, generate. -/
def generatedArtifacts (parse : String → String → Option ParsedEndpoint)
    (config : ResolvedConfig) (dirExists : Bool)
    (sources : List (String × String)) : List (String × String) :=
  let files := scanEndpointFiles dirExists sources
  let endpoints := (parseAllEndpoints parse sources files).map Prod.snd
  artifactList endpoints config

/-- Translation of writeIfChanged folded over the artifact list: write a
file only when its content differs from what is on disk, recording the
paths actually written. -/
def writeArtifacts (disk : List (String × String))
    (arts : List (String × String)) : List (String × String) × List String :=
  arts.foldl
    (fun acc art =>
      match List.lookup art.1 acc.1 with
      | some existing =>
        if existing = art.2 then acc
        else (setAssoc acc.1 art.1 art.2, acc.2 ++ [art.1])
      | none => (setAssoc acc.1 art.1 art.2, acc.2 ++ [art.1]))
    (disk, [])

/-- Outcome of one one-shot generation. -/
inductive GenOutcome where
  | noFiles
  | noChange
  | rebuilt
deriving DecidableEq, Repr

/-- Observable result of one one-shot generation: the new filesystem
state, which terminal branch was taken, whether the persisted manifest was
loaded and saved, whether extraction ran, and the artifact paths written. -/
structure GenResult where
  state : FsState
  outcome : GenOutcome
  loadedManifest : Bool
  extracted : Bool
  savedManifest : Bool
  writes : List String
deriving DecidableEq, Repr

/-- Translation of runGenerate, the one-shot build controller: scan; stop
on no files; compare the loaded and freshly built manifests; stop on a
match; otherwise re-extract everything, write changed artifacts and persist
the new manifest. -/
def runGenerate (hash : String → String)
    (parse : String → String → Option ParsedEndpoint)
    (config : ResolvedConfig) (s : FsState) : GenResult :=
  let files := scanEndpointFiles s.endpointsDirExists s.sources
  if files.isEmpty then
    { state := s, outcome := .noFiles, loadedManifest := false,
      extracted := false, savedManifest := false, writes := [] }
  else
    let oldManifest := loadManifest s.manifestFile
    let newManifest := buildManifest hash s.sources files
    if manifestsMatch oldManifest newManifest then
      { state := s, outcome := .noChange, loadedManifest := true,
        extracted := false, savedManifest := false, writes := [] }
    else
      let endpoints := (parseAllEndpoints parse s.sources files).map Prod.snd
      let written := writeArtifacts s.disk (artifactList endpoints config)
      { state :=
          { endpointsDirExists := s.endpointsDirExists
            sources := s.sources
            manifestFile := .valid newManifest
            disk := written.1 }
        outcome := .rebuilt
        loadedManifest := true
        extracted := true
        savedManifest := true
        writes := written.2 }

end Ertk

namespace Ertk

theorem leChars_total (as bs : List Char) :
    leChars as bs = true ∨ leChars bs as = true := by
  induction as generalizing bs with
  | nil => left; rfl
  | cons a as ih =>
    cases bs with
    | nil => right; rfl
    | cons b bs =>
      by_cases hab : a = b
      · subst hab
        rcases ih bs with h | h
        · left; simpa [leChars] using h
        · right; simpa [leChars] using h
      · rcases lt_trichotomy a b with h | h | h
        · left; simp [leChars, hab, h]
        · exact absurd h hab
        · right; simp [leChars, Ne.symm hab, h]

theorem leChars_trans (as bs cs : List Char) (h₁ : leChars as bs = true)
    (h₂ : leChars bs cs = true) : leChars as cs = true := by
  induction as generalizing bs cs with
  | nil => rfl
  | cons a as ih =>
    cases bs with
    | nil => simp [leChars] at h₁
    | cons b bs =>
      cases cs with
      | nil => simp [leChars] at h₂
      | cons c cs =>
        by_cases hab : a = b <;> by_cases hbc : b = c
        · subst hab; subst hbc
          simp only [leChars, if_pos rfl] at h₁ h₂ ⊢
          exact ih bs cs h₁ h₂
        · subst hab
          simp only [leChars, if_pos rfl, if_neg hbc, decide_eq_true_eq] at h₁ h₂ ⊢
          simp [if_neg (ne_of_lt h₂), h₂]
        · subst hbc
          simp only [leChars, if_neg hab, decide_eq_true_eq] at h₁ ⊢
          simp [if_neg (ne_of_lt h₁), h₁]
        · simp only [leChars, if_neg hab, if_neg hbc, decide_eq_true_eq] at h₁ h₂
          have h₃ := lt_trans h₁ h₂
          simp [leChars, if_neg (ne_of_lt h₃), h₃]

theorem leChars_antisymm (as bs : List Char) (h₁ : leChars as bs = true)
    (h₂ : leChars bs as = true) : as = bs := by
  induction as generalizing bs with
  | nil =>
    cases bs with
    | nil => rfl
    | cons b bs => simp [leChars] at h₂
  | cons a as ih =>
    cases bs with
    | nil => simp [leChars] at h₁
    | cons b bs =>
      by_cases hab : a = b
      · subst hab
        simp only [leChars, if_pos rfl] at h₁ h₂
        exact congrArg (a :: ·) (ih bs h₁ h₂)
      · simp only [leChars, if_neg hab, if_neg (Ne.symm hab),
          decide_eq_true_eq] at h₁ h₂
        exact absurd h₂ (lt_asymm h₁)

instance : IsTotal String stringLe :=
  ⟨fun a b => leChars_total a.data b.data⟩

instance : IsTrans String stringLe :=
  ⟨fun a b c => leChars_trans a.data b.data c.data⟩

instance : IsAntisymm String stringLe :=
  ⟨fun a b h₁ h₂ => String.ext (leChars_antisymm a.data b.data h₁ h₂)⟩

theorem sortStrings_perm_invariant {l₁ l₂ : List String} (h : l₁.Perm l₂) :
    sortStrings l₁ = sortStrings l₂ := by
  exact List.eq_of_perm_of_sorted
    ((List.perm_insertionSort stringLe l₁).trans
      (h.trans (List.perm_insertionSort stringLe l₂).symm))
    (List.sorted_insertionSort stringLe l₁)
    (List.sorted_insertionSort stringLe l₂)

theorem lookup_cons_eq (k : String) (x : String × β) (l : List (String × β)) :
    List.lookup k (x :: l) = if k = x.1 then some x.2 else List.lookup k l := by
  cases x with
  | mk a b =>
    by_cases h : k = a
    · subst h; simp [List.lookup]
    · have hb : (k == a) = false := beq_eq_false_iff_ne.mpr h
      simp [List.lookup, hb, h]

theorem lookup_perm_of_nodup {l₁ l₂ : List (String × β)} (h : l₁.Perm l₂) :
    (l₁.map Prod.fst).Nodup → ∀ k, List.lookup k l₁ = List.lookup k l₂ := by
  induction h with
  | nil => intro _ _; rfl
  | cons x h ih =>
    intro hnd k
    simp only [List.map_cons, List.nodup_cons] at hnd
    rw [lookup_cons_eq, lookup_cons_eq]
    by_cases hk : k = x.1
    · simp [hk]
    · simp [hk, ih hnd.2 k]
  | swap x y l =>
    intro hnd k
    simp only [List.map_cons, List.nodup_cons, List.mem_cons] at hnd
    have hxy : y.1 ≠ x.1 := fun e => hnd.1 (Or.inl e)
    rw [lookup_cons_eq, lookup_cons_eq, lookup_cons_eq, lookup_cons_eq]
    by_cases hky : k = y.1 <;> by_cases hkx : k = x.1
    · exact absurd (hky.symm.trans hkx) hxy
    · simp [hky, hkx, hxy]
    · simp [hky, hkx, Ne.symm hxy]
    · simp [hky, hkx]
  | trans h₁ h₂ ih₁ ih₂ =>
    intro hnd k
    have hnd₂ := ((h₁.map Prod.fst).nodup_iff).mp hnd
    exact (ih₁ hnd k).trans (ih₂ hnd₂ k)

theorem contentOf_perm_of_nodup {l₁ l₂ : List (String × String)} (h : l₁.Perm l₂)
    (hnd : (l₁.map Prod.fst).Nodup) : contentOf l₁ = contentOf l₂ := by
  funext p
  unfold contentOf
  rw [lookup_perm_of_nodup h hnd p]

theorem scanEndpointFiles_perm_invariant {l₁ l₂ : List (String × String)}
    (h : l₁.Perm l₂) (de : Bool) :
    scanEndpointFiles de l₁ = scanEndpointFiles de l₂ := by
  unfold scanEndpointFiles
  by_cases hde : de = true
  · simp only [hde]
    exact congrArg _ (sortStrings_perm_invariant (((h.map Prod.fst).filter _).map _))
  · simp [Bool.eq_false_iff.mpr hde]

end Ertk

namespace Ertk

theorem zipSelf_all_true (m : List (String × String)) (l : List String) :
    ((l.zip l).all
      (fun kk => kk.1 == kk.2 && List.lookup kk.1 m == List.lookup kk.2 m)) = true := by
  induction l with
  | nil => rfl
  | cons x xs ih => simp [ih]

theorem manifestsMatch_self (m : List (String × String)) :
    manifestsMatch m m = true := by
  unfold manifestsMatch
  simp [zipSelf_all_true]

theorem runGenerate_eq_noFiles (hash : String → String)
    (parse : String → String → Option ParsedEndpoint) (config : ResolvedConfig)
    (s : FsState) (h : scanEndpointFiles s.endpointsDirExists s.sources = []) :
    runGenerate hash parse config s =
      { state := s, outcome := .noFiles, loadedManifest := false,
        extracted := false, savedManifest := false, writes := [] } := by
  unfold runGenerate
  simp [h]

theorem runGenerate_eq_noChange (hash : String → String)
    (parse : String → String → Option ParsedEndpoint) (config : ResolvedConfig)
    (s : FsState) (h : scanEndpointFiles s.endpointsDirExists s.sources ≠ [])
    (hm : manifestsMatch (loadManifest s.manifestFile)
        (buildManifest hash s.sources
          (scanEndpointFiles s.endpointsDirExists s.sources)) = true) :
    runGenerate hash parse config s =
      { state := s, outcome := .noChange, loadedManifest := true,
        extracted := false, savedManifest := false, writes := [] } := by
  unfold runGenerate
  simp [List.isEmpty_iff, h, hm]

theorem runGenerate_eq_rebuilt (hash : String → String)
    (parse : String → String → Option ParsedEndpoint) (config : ResolvedConfig)
    (s : FsState) (h : scanEndpointFiles s.endpointsDirExists s.sources ≠ [])
    (hm : manifestsMatch (loadManifest s.manifestFile)
        (buildManifest hash s.sources
          (scanEndpointFiles s.endpointsDirExists s.sources)) = false) :
    runGenerate hash parse config s =
      { state :=
          { endpointsDirExists := s.endpointsDirExists
            sources := s.sources
            manifestFile := .valid (buildManifest hash s.sources
              (scanEndpointFiles s.endpointsDirExists s.sources))
            disk := (writeArtifacts s.disk (artifactList
              ((parseAllEndpoints parse s.sources
                (scanEndpointFiles s.endpointsDirExists s.sources)).map Prod.snd)
              config)).1 }
        outcome := .rebuilt
        loadedManifest := true
        extracted := true
        savedManifest := true
        writes := (writeArtifacts s.disk (artifactList
          ((parseAllEndpoints parse s.sources
            (scanEndpointFiles s.endpointsDirExists s.sources)).map Prod.snd)
          config)).2 } := by
  unfold runGenerate
  simp [List.isEmpty_iff, h, hm]

end Ertk

namespace Ertk

/-- C1: for a fixed set of endpoint source files (same relative paths and
byte contents) and fixed resolved configuration, permuting the order in
which the files are discovered yields byte-identical text for every
generated artifact (api, store, invalidation, and each per-route file). -/
theorem generatedArtifacts_deterministic
    (parse : String → String → Option ParsedEndpoint) (config : ResolvedConfig)
    (dirExists : Bool) (src₁ src₂ : List (String × String))
    (hperm : src₁.Perm src₂) (hnd : (src₁.map Prod.fst).Nodup) :
    generatedArtifacts parse config dirExists src₁ =
      generatedArtifacts parse config dirExists src₂ := by
  have hscan := scanEndpointFiles_perm_invariant hperm dirExists
  have hcontent := contentOf_perm_of_nodup hperm hnd
  simp only [generatedArtifacts, parseAllEndpoints, hscan, hcontent]

theorem generatedArtifacts_deterministic_witness :
    ([("b.ts", "y"), ("a.ts", "x")] : List (String × String)).Perm
        [("a.ts", "x"), ("b.ts", "y")] ∧
    (([("b.ts", "y"), ("a.ts", "x")] : List (String × String)).map Prod.fst).Nodup ∧
    generatedArtifacts (fun _ _ => none) sampleConfig true
        [("b.ts", "y"), ("a.ts", "x")] =
      generatedArtifacts (fun _ _ => none) sampleConfig true
        [("a.ts", "x"), ("b.ts", "y")] :=
  ⟨List.Perm.swap _ _ _, by decide,
   generatedArtifacts_deterministic (fun _ _ => none) sampleConfig true _ _
     (List.Perm.swap _ _ _) (by decide)⟩

/-- C4: the route path deriver strips the extension, splits into segments,
pops the last segment, appends the popped filename only when it is not in
the CRUD filename set, and prefixes the join with /api/; with the default
CRUD set the four literal cases of the specification hold. -/
theorem deriveRoutePath_matches_spec :
    (∀ (p : String) (config : ResolvedConfig),
        deriveRoutePath p config = routePathOfSpec p config.crudFilenames)
    ∧ deriveRoutePath "tasks/list.ts" sampleConfig = "/api/tasks"
    ∧ deriveRoutePath "tasks/create.ts" sampleConfig = "/api/tasks"
    ∧ deriveRoutePath "users/profile/update.ts" sampleConfig = "/api/users/profile"
    ∧ deriveRoutePath "billing/invoices.ts" sampleConfig = "/api/billing/invoices" := by
  refine ⟨fun p config => ?_, by decide, by decide, by decide, by decide⟩
  simp only [deriveRoutePath, routePathOfSpec, foldl_append_singleton,
    List.nil_append]
  split <;> simp

theorem runGenerate_fresh_manifest_noChange (hash : String → String)
    (parse : String → String → Option ParsedEndpoint) (config : ResolvedConfig)
    (de : Bool) (src : List (String × String)) (d : List (String × String))
    (h : scanEndpointFiles de src ≠ []) :
    runGenerate hash parse config
      { endpointsDirExists := de, sources := src,
        manifestFile := .valid (buildManifest hash src (scanEndpointFiles de src)),
        disk := d } =
      { state :=
          { endpointsDirExists := de, sources := src,
            manifestFile := .valid (buildManifest hash src (scanEndpointFiles de src)),
            disk := d }
        outcome := .noChange, loadedManifest := true,
        extracted := false, savedManifest := false, writes := [] } :=
  runGenerate_eq_noChange hash parse config _ h (manifestsMatch_self _)

/-- C2: running the one-shot generation twice in a row with no change to
any source file performs zero artifact writes on the second run, which
detects NoChange via manifest comparison, does no extraction and no
manifest save, and leaves the persisted manifest byte-identical. -/
theorem runGenerate_idempotent (hash : String → String)
    (parse : String → String → Option ParsedEndpoint) (config : ResolvedConfig)
    (s : FsState)
    (hfiles : scanEndpointFiles s.endpointsDirExists s.sources ≠ []) :
    (runGenerate hash parse config (runGenerate hash parse config s).state).writes = [] ∧
    (runGenerate hash parse config (runGenerate hash parse config s).state).outcome
      = .noChange ∧
    (runGenerate hash parse config (runGenerate hash parse config s).state).extracted
      = false ∧
    (runGenerate hash parse config (runGenerate hash parse config s).state).savedManifest
      = false ∧
    (runGenerate hash parse config
        (runGenerate hash parse config s).state).state.manifestFile =
      (runGenerate hash parse config s).state.manifestFile := by
  cases hm : manifestsMatch (loadManifest s.manifestFile)
      (buildManifest hash s.sources
        (scanEndpointFiles s.endpointsDirExists s.sources)) with
  | true =>
    rw [runGenerate_eq_noChange hash parse config s hfiles hm]
    rw [runGenerate_eq_noChange hash parse config s hfiles hm]
    exact ⟨rfl, rfl, rfl, rfl, rfl⟩
  | false =>
    rw [runGenerate_eq_rebuilt hash parse config s hfiles hm]
    dsimp only
    rw [runGenerate_fresh_manifest_noChange hash parse config
      s.endpointsDirExists s.sources _ hfiles]
    exact ⟨rfl, rfl, rfl, rfl, rfl⟩

theorem runGenerate_idempotent_witness :
    scanEndpointFiles
        ({ endpointsDirExists := true, sources := [("tasks/list.ts", "x")],
           manifestFile := .absent, disk := [] } : FsState).endpointsDirExists
        ({ endpointsDirExists := true, sources := [("tasks/list.ts", "x")],
           manifestFile := .absent, disk := [] } : FsState).sources ≠ [] ∧
    (runGenerate (fun c => c) (fun _ _ => none) sampleConfig
        (runGenerate (fun c => c) (fun _ _ => none) sampleConfig
          { endpointsDirExists := true, sources := [("tasks/list.ts", "x")],
            manifestFile := .absent, disk := [] }).state).writes = [] ∧
    (runGenerate (fun c => c) (fun _ _ => none) sampleConfig
        (runGenerate (fun c => c) (fun _ _ => none) sampleConfig
          { endpointsDirExists := true, sources := [("tasks/list.ts", "x")],
            manifestFile := .absent, disk := [] }).state).outcome = .noChange :=
  ⟨by decide,
   (runGenerate_idempotent (fun c => c) (fun _ _ => none) sampleConfig
     { endpointsDirExists := true, sources := [("tasks/list.ts", "x")],
       manifestFile := .absent, disk := [] } (by decide)).1,
   (runGenerate_idempotent (fun c => c) (fun _ _ => none) sampleConfig
     { endpointsDirExists := true, sources := [("tasks/list.ts", "x")],
       manifestFile := .absent, disk := [] } (by decide)).2.1⟩

/-- C9: an unreadable or invalid persisted manifest never fails the build:
loadManifest yields the empty map, the manifest comparison reports a
mismatch, and a full rebuild is triggered. -/
theorem corruptManifest_forces_rebuild (hash : String → String)
    (parse : String → String → Option ParsedEndpoint) (config : ResolvedConfig)
    (s : FsState)
    (hfiles : scanEndpointFiles s.endpointsDirExists s.sources ≠ [])
    (hcorrupt : s.manifestFile = .absent ∨ s.manifestFile = .corrupt) :
    loadManifest s.manifestFile = [] ∧
    (runGenerate hash parse config s).outcome = .rebuilt ∧
    (runGenerate hash parse config s).extracted = true := by
  have hload : loadManifest s.manifestFile = [] := by
    rcases hcorrupt with h | h <;> rw [h] <;> rfl
  have hmm : manifestsMatch (loadManifest s.manifestFile)
      (buildManifest hash s.sources
        (scanEndpointFiles s.endpointsDirExists s.sources)) = false := by
    rw [hload]
    unfold manifestsMatch buildManifest
    cases hsc : scanEndpointFiles s.endpointsDirExists s.sources with
    | nil => exact absurd hsc hfiles
    | cons f fs =>
      simp [sortStrings, List.insertionSort, List.orderedInsert_length]
  rw [runGenerate_eq_rebuilt hash parse config s hfiles hmm]
  exact ⟨hload, rfl, rfl⟩

theorem corruptManifest_forces_rebuild_witness :
    scanEndpointFiles true [("tasks/list.ts", "x")] ≠ [] ∧
    (({ endpointsDirExists := true, sources := [("tasks/list.ts", "x")],
        manifestFile := .corrupt, disk := [] } : FsState).manifestFile = .absent ∨
      ({ endpointsDirExists := true, sources := [("tasks/list.ts", "x")],
         manifestFile := .corrupt, disk := [] } : FsState).manifestFile = .corrupt) ∧
    loadManifest ManifestFile.corrupt = [] ∧
    (runGenerate (fun c => c) (fun _ _ => none) sampleConfig
      { endpointsDirExists := true, sources := [("tasks/list.ts", "x")],
        manifestFile := .corrupt, disk := [] }).outcome = .rebuilt :=
  ⟨by decide, Or.inr rfl,
   (corruptManifest_forces_rebuild (fun c => c) (fun _ _ => none) sampleConfig
     { endpointsDirExists := true, sources := [("tasks/list.ts", "x")],
       manifestFile := .corrupt, disk := [] } (by decide) (Or.inr rfl)).1,
   (corruptManifest_forces_rebuild (fun c => c) (fun _ _ => none) sampleConfig
     { endpointsDirExists := true, sources := [("tasks/list.ts", "x")],
       manifestFile := .corrupt, disk := [] } (by decide) (Or.inr rfl)).2.1⟩

/-- C10: when the one-shot generation finds zero endpoint source files it
returns before loading, comparing or saving the manifest and before
writing any artifact, leaving the persisted manifest and the generated
artifacts on disk unchanged. -/
theorem runGenerate_noFiles_frame (hash : String → String)
    (parse : String → String → Option ParsedEndpoint) (config : ResolvedConfig)
    (s : FsState)
    (hfiles : scanEndpointFiles s.endpointsDirExists s.sources = []) :
    (runGenerate hash parse config s).state = s ∧
    (runGenerate hash parse config s).outcome = .noFiles ∧
    (runGenerate hash parse config s).loadedManifest = false ∧
    (runGenerate hash parse config s).savedManifest = false ∧
    (runGenerate hash parse config s).extracted = false ∧
    (runGenerate hash parse config s).writes = [] := by
  rw [runGenerate_eq_noFiles hash parse config s hfiles]
  exact ⟨rfl, rfl, rfl, rfl, rfl, rfl⟩

theorem runGenerate_noFiles_frame_witness :
    scanEndpointFiles true [("notes.md", "x")] = [] ∧
    (runGenerate (fun c => c) (fun _ _ => none) sampleConfig
      { endpointsDirExists := true, sources := [("notes.md", "x")],
        manifestFile := .valid [("old.ts", "h")],
        disk := [("/proj/src/generated/api.ts", "old")] }).state =
      { endpointsDirExists := true, sources := [("notes.md", "x")],
        manifestFile := .valid [("old.ts", "h")],
        disk := [("/proj/src/generated/api.ts", "old")] } ∧
    (runGenerate (fun c => c) (fun _ _ => none) sampleConfig
      { endpointsDirExists := true, sources := [("notes.md", "x")],
        manifestFile := .valid [("old.ts", "h")],
        disk := [("/proj/src/generated/api.ts", "old")] }).outcome = .noFiles :=
  ⟨by decide,
   (runGenerate_noFiles_frame (fun c => c) (fun _ _ => none) sampleConfig
     { endpointsDirExists := true, sources := [("notes.md", "x")],
       manifestFile := .valid [("old.ts", "h")],
       disk := [("/proj/src/generated/api.ts", "old")] } (by decide)).1,
   (runGenerate_noFiles_frame (fun c => c) (fun _ _ => none) sampleConfig
     { endpointsDirExists := true, sources := [("notes.md", "x")],
       manifestFile := .valid [("old.ts", "h")],
       disk := [("/proj/src/generated/api.ts", "old")] } (by decide)).2.1⟩

end Ertk

namespace Ertk

theorem setAssoc_mem {l : List (String × β)} {k : String} {v : β} :
    ∀ p ∈ setAssoc l k v, p = (k, v) ∨ p ∈ l := by
  induction l with
  | nil => simp [setAssoc]
  | cons x xs ih =>
    obtain ⟨a, b⟩ := x
    intro p hp
    by_cases hk : a = k
    · subst hk
      simp only [setAssoc, if_pos rfl] at hp
      rcases List.mem_cons.mp hp with h | h
      · exact Or.inl h
      · exact Or.inr (List.mem_cons_of_mem _ h)
    · simp only [setAssoc, if_neg hk] at hp
      rcases List.mem_cons.mp hp with h | h
      · exact Or.inr (h ▸ List.mem_cons_self _ _)
      · rcases ih p h with h₂ | h₂
        · exact Or.inl h₂
        · exact Or.inr (List.mem_cons_of_mem _ h₂)

theorem setAssoc_map_fst (l : List (String × β)) (k : String) (v : β) :
    (setAssoc l k v).map Prod.fst =
      if k ∈ l.map Prod.fst then l.map Prod.fst else l.map Prod.fst ++ [k] := by
  induction l with
  | nil => simp [setAssoc]
  | cons x xs ih =>
    obtain ⟨a, b⟩ := x
    by_cases hk : a = k
    · subst hk; simp [setAssoc]
    · simp only [setAssoc, if_neg hk, List.map_cons, ih]
      by_cases hm : k ∈ List.map Prod.fst xs
      · simp [hm, Ne.symm hk]
      · simp [hm, Ne.symm hk]

theorem setAssoc_map_fst_nodup {l : List (String × β)} {k : String} {v : β}
    (h : (l.map Prod.fst).Nodup) : ((setAssoc l k v).map Prod.fst).Nodup := by
  rw [setAssoc_map_fst]
  split_ifs with hk
  · exact h
  · simp [List.nodup_append, h, hk]

theorem setAssoc_lookup_self (l : List (String × β)) (k : String) (v : β) :
    List.lookup k (setAssoc l k v) = some v := by
  induction l with
  | nil => simp [setAssoc, lookup_cons_eq]
  | cons x xs ih =>
    obtain ⟨a, b⟩ := x
    by_cases hk : a = k
    · subst hk; simp [setAssoc, lookup_cons_eq]
    · simp [setAssoc, hk, lookup_cons_eq, Ne.symm hk, ih]

theorem setAssoc_lookup_other (l : List (String × β)) {k k₂ : String} (v : β)
    (h : k₂ ≠ k) : List.lookup k₂ (setAssoc l k v) = List.lookup k₂ l := by
  induction l with
  | nil => simp [setAssoc, lookup_cons_eq, h]
  | cons x xs ih =>
    obtain ⟨a, b⟩ := x
    by_cases hk : a = k
    · subst hk; simp [setAssoc, lookup_cons_eq, h]
    · simp [setAssoc, hk, lookup_cons_eq, ih]

theorem mem_modifyAssoc {l : List (String × β)} {k : String} {f : β → β} :
    ∀ p ∈ modifyAssoc l k f, p ∈ l ∨ ∃ q ∈ l, p = (q.1, f q.2) := by
  induction l with
  | nil => simp [modifyAssoc]
  | cons x xs ih =>
    obtain ⟨a, b⟩ := x
    intro p hp
    by_cases hk : a = k
    · simp only [modifyAssoc, if_pos hk] at hp
      rcases List.mem_cons.mp hp with h | h
      · exact Or.inr ⟨(a, b), List.mem_cons_self _ _, h⟩
      · exact Or.inl (List.mem_cons_of_mem _ h)
    · simp only [modifyAssoc, if_neg hk] at hp
      rcases List.mem_cons.mp hp with h | h
      · exact Or.inl (h ▸ List.mem_cons_self _ _)
      · rcases ih p h with h₂ | ⟨q, hq, he⟩
        · exact Or.inl (List.mem_cons_of_mem _ h₂)
        · exact Or.inr ⟨q, List.mem_cons_of_mem _ hq, he⟩

theorem modifyAssoc_map_fst (l : List (String × β)) (k : String) (f : β → β) :
    (modifyAssoc l k f).map Prod.fst = l.map Prod.fst := by
  induction l with
  | nil => rfl
  | cons x xs ih =>
    obtain ⟨a, b⟩ := x
    by_cases hk : a = k
    · simp [modifyAssoc, hk]
    · simp [modifyAssoc, hk, ih]

theorem modifyAssoc_lookup_self (l : List (String × β)) (k : String) (f : β → β) :
    List.lookup k (modifyAssoc l k f) = (List.lookup k l).map f := by
  induction l with
  | nil => rfl
  | cons x xs ih =>
    obtain ⟨a, b⟩ := x
    by_cases hk : a = k
    · subst hk; simp [modifyAssoc, lookup_cons_eq]
    · simp [modifyAssoc, hk, lookup_cons_eq, Ne.symm hk, ih]

theorem modifyAssoc_lookup_other (l : List (String × β)) {k k₂ : String}
    (f : β → β) (h : k₂ ≠ k) :
    List.lookup k₂ (modifyAssoc l k f) = List.lookup k₂ l := by
  induction l with
  | nil => rfl
  | cons x xs ih =>
    obtain ⟨a, b⟩ := x
    by_cases hk : a = k
    · subst hk; simp [modifyAssoc, lookup_cons_eq, h]
    · simp [modifyAssoc, hk, lookup_cons_eq, ih]

theorem lookup_append (l₁ l₂ : List (String × β)) (k : String) :
    List.lookup k (l₁ ++ l₂) =
      match List.lookup k l₁ with
      | some v => some v
      | none => List.lookup k l₂ := by
  induction l₁ with
  | nil => simp
  | cons x xs ih =>
    rw [List.cons_append, lookup_cons_eq, lookup_cons_eq]
    by_cases hk : k = x.1
    · simp [hk]
    · simp [hk, ih]

end Ertk

namespace Ertk

/-- Method lookup through the grouped output: the descriptor stored for an
uppercased method within the group of a route path, if any. -/
def lookupGroupMethod (groups : List (String × RouteGroup)) (r m : String) :
    Option ParsedEndpoint :=
  match List.lookup r groups with
  | some g => List.lookup m g.methods
  | none => none

/-- The last descriptor in iteration order that has a handler and matches a
route path and uppercased method (the specification's last-write-wins
winner). -/
def lastHandlerWith (endpoints : List ParsedEndpoint) (r m : String) :
    Option ParsedEndpoint :=
  (endpoints.filter
    (fun e => e.hasHandler && (e.routePath == r) && (jsToUpper e.method == m))).getLast?

theorem lookupGroupMethod_step (rc : RoutesConfig)
    (groups : List (String × RouteGroup)) (ep : ParsedEndpoint) (r m : String) :
    lookupGroupMethod (groupStep rc groups ep) r m =
      if ep.hasHandler = true ∧ r = ep.routePath ∧ m = jsToUpper ep.method then some ep
      else lookupGroupMethod groups r m := by
  by_cases hh : ep.hasHandler
  · simp only [groupStep, hh, Bool.not_true, Bool.false_eq_true, if_false]
    by_cases hr : r = ep.routePath
    · subst hr
      unfold lookupGroupMethod
      rw [modifyAssoc_lookup_self]
      cases hex : List.lookup ep.routePath groups with
      | some g =>
        rw [if_pos (by simp [hex]), hex]
        dsimp only [Option.map]
        by_cases hm : m = jsToUpper ep.method
        · subst hm
          rw [setAssoc_lookup_self]
          simp
        · rw [setAssoc_lookup_other _ _ hm]
          simp [hm]
      | none =>
        rw [if_neg (by simp [hex]), lookup_append, hex]
        dsimp only
        rw [lookup_cons_eq, if_pos rfl]
        dsimp only [Option.map]
        by_cases hm : m = jsToUpper ep.method
        · subst hm
          rw [setAssoc_lookup_self]
          simp
        · rw [setAssoc_lookup_other _ _ hm]
          simp [hm]
    · unfold lookupGroupMethod
      rw [modifyAssoc_lookup_other _ _ hr]
      have hlk : List.lookup r
          (if (List.lookup ep.routePath groups).isSome then groups
           else groups ++
            [(ep.routePath,
              { routePath := ep.routePath
                appRouteDir :=
                  pathJoin rc.dir
                    (if strStartsWith ep.routePath "/api/" then strDrop ep.routePath 5
                     else ep.routePath)
                methods := [] })]) = List.lookup r groups := by
        split
        · rfl
        · rw [lookup_append]
          cases h₂ : List.lookup r groups <;> simp [h₂, lookup_cons_eq, hr]
      rw [hlk, if_neg (fun hc => hr hc.2.1)]
  · have hh₂ : ep.hasHandler = false := by simpa using hh
    simp [groupStep, hh₂]

/-- Invariant of the grouped output: every stored descriptor has a handler
and method keys are unique within each group. -/
def GroupsClean (groups : List (String × RouteGroup)) : Prop :=
  ∀ rg ∈ groups,
    (∀ mep ∈ rg.2.methods, mep.2.hasHandler = true) ∧
      (rg.2.methods.map Prod.fst).Nodup

theorem groupStep_clean (rc : RoutesConfig) (groups : List (String × RouteGroup))
    (ep : ParsedEndpoint) (h : GroupsClean groups) :
    GroupsClean (groupStep rc groups ep) := by
  by_cases hh : ep.hasHandler
  · simp only [groupStep, hh, Bool.not_true, Bool.false_eq_true, if_false]
    intro rg hrg
    have hclean₁ : GroupsClean
        (if (List.lookup ep.routePath groups).isSome then groups
         else groups ++
          [(ep.routePath,
            { routePath := ep.routePath
              appRouteDir :=
                pathJoin rc.dir
                  (if strStartsWith ep.routePath "/api/" then strDrop ep.routePath 5
                   else ep.routePath)
              methods := [] })]) := by
      split
      · exact h
      · intro rg₂ hrg₂
        rcases List.mem_append.mp hrg₂ with h₂ | h₂
        · exact h rg₂ h₂
        · simp only [List.mem_singleton] at h₂
          subst h₂
          exact ⟨by intro mep hmep; simp at hmep, by simp⟩
    rcases mem_modifyAssoc rg hrg with h₂ | ⟨q, hq, he⟩
    · exact hclean₁ rg h₂
    · subst he
      have hqc := hclean₁ q hq
      constructor
      · intro mep hmep
        rcases setAssoc_mem mep hmep with h₃ | h₃
        · subst h₃; exact hh
        · exact hqc.1 mep h₃
      · exact setAssoc_map_fst_nodup hqc.2
  · have hh₂ : ep.hasHandler = false := by simpa using hh
    simpa [groupStep, hh₂] using h

theorem foldl_groupStep_clean (rc : RoutesConfig) (eps : List ParsedEndpoint) :
    ∀ acc, GroupsClean acc → GroupsClean (eps.foldl (groupStep rc) acc) := by
  induction eps with
  | nil => intro acc h; exact h
  | cons e es ih =>
    intro acc h
    exact ih _ (groupStep_clean rc acc e h)

theorem lastHandlerWith_append_single (xs : List ParsedEndpoint)
    (x : ParsedEndpoint) (r m : String) :
    lastHandlerWith (xs ++ [x]) r m =
      if x.hasHandler = true ∧ r = x.routePath ∧ m = jsToUpper x.method then some x
      else lastHandlerWith xs r m := by
  unfold lastHandlerWith
  rw [List.filter_append]
  by_cases hc : x.hasHandler = true ∧ r = x.routePath ∧ m = jsToUpper x.method
  · have hb : (x.hasHandler && (x.routePath == r) && (jsToUpper x.method == m)) = true := by
      simp [hc.1, hc.2.1.symm, hc.2.2.symm]
    simp only [List.filter_cons, hb, if_pos rfl, List.filter_nil, if_pos hc]
    exact List.getLast?_concat _
  · have hb : (x.hasHandler && (x.routePath == r) && (jsToUpper x.method == m)) = false := by
      rcases Decidable.not_and_iff_or_not.mp hc with h | h
      · simp [Bool.eq_false_iff.mpr (fun e => h e)]
      · rcases Decidable.not_and_iff_or_not.mp h with h₂ | h₂
        · have : (x.routePath == r) = false := by
            simpa using fun e => h₂ e.symm
          simp [this]
        · have : (jsToUpper x.method == m) = false := by
            simpa using fun e => h₂ e.symm
          simp [this]
    simp [List.filter_cons, hb, hc]

theorem foldl_groupStep_lookup (rc : RoutesConfig) (endpoints : List ParsedEndpoint)
    (r m : String) :
    lookupGroupMethod (endpoints.foldl (groupStep rc) []) r m =
      lastHandlerWith endpoints r m := by
  induction endpoints using List.reverseRecOn with
  | nil => rfl
  | append_singleton xs x ih =>
    rw [List.foldl_append, List.foldl_cons, List.foldl_nil,
      lookupGroupMethod_step, lastHandlerWith_append_single]
    split
    · rfl
    · exact ih

/-- C5: no descriptor without a handler appears in any route group, each
group maps each uppercased method to at most one descriptor, and a
collision on the same route path and method resolves last-write-wins in
iteration order. -/
theorem groupEndpointsByRoute_invariants (endpoints : List ParsedEndpoint)
    (config : ResolvedConfig) :
    (∀ rg ∈ groupEndpointsByRoute endpoints config,
        (∀ mep ∈ rg.2.methods, mep.2.hasHandler = true) ∧
          (rg.2.methods.map Prod.fst).Nodup)
    ∧ (∀ rc, config.routes = some rc → ∀ r m,
        lookupGroupMethod (groupEndpointsByRoute endpoints config) r m =
          lastHandlerWith endpoints r m) := by
  constructor
  · intro rg hrg
    unfold groupEndpointsByRoute at hrg
    cases hro : config.routes with
    | none => rw [hro] at hrg; simp at hrg
    | some rc =>
      rw [hro] at hrg
      exact foldl_groupStep_clean rc endpoints [] (by intro x hx; simp at hx) rg hrg
  · intro rc hro r m
    unfold groupEndpointsByRoute
    rw [hro]
    exact foldl_groupStep_lookup rc endpoints r m

end Ertk

namespace Ertk

/-- A sample routes sub-configuration. -/
def sampleRoutes : RoutesConfig :=
  { dir := "/proj/app/api", handlerModule := "ertk/next", ignoredRoutes := [] }

/-- The sample configuration with routes enabled. -/
def sampleConfigWithRoutes : ResolvedConfig :=
  { sampleConfig with routes := some sampleRoutes }

/-- A minimal concrete descriptor for witnesses. -/
def sampleEndpoint (n m rp : String) (h : Bool) : ParsedEndpoint :=
  { name := n
    method := m
    filePath := n ++ ".ts"
    importPath := "@app/endpoints/" ++ n
    routePath := rp
    isProtected := true
    hasRequest := false
    hasHandler := h
    responseType := "unknown"
    responseTypeImport := none
    argsType := "void"
    argsTypeImport := none
    queryFnSource := ""
    endpointType := .query
    providesTagsSource := none
    invalidatesTagsSource := none
    optimisticSource := none
    maxRetries := none
    typeImports := [] }

theorem groupEndpointsByRoute_invariants_witness :
    sampleConfigWithRoutes.routes = some sampleRoutes ∧
    lookupGroupMethod
        (groupEndpointsByRoute
          [sampleEndpoint "a" "post" "/api/tasks" true,
           sampleEndpoint "b" "post" "/api/tasks" true]
          sampleConfigWithRoutes) "/api/tasks" "POST" =
      lastHandlerWith
        [sampleEndpoint "a" "post" "/api/tasks" true,
         sampleEndpoint "b" "post" "/api/tasks" true] "/api/tasks" "POST" ∧
    lastHandlerWith
        [sampleEndpoint "a" "post" "/api/tasks" true,
         sampleEndpoint "b" "post" "/api/tasks" true] "/api/tasks" "POST" =
      some (sampleEndpoint "b" "post" "/api/tasks" true) :=
  ⟨rfl,
   (groupEndpointsByRoute_invariants
       [sampleEndpoint "a" "post" "/api/tasks" true,
        sampleEndpoint "b" "post" "/api/tasks" true]
       sampleConfigWithRoutes).2 sampleRoutes rfl "/api/tasks" "POST",
   by decide⟩

end Ertk

namespace Ertk

theorem extractMaxRetries_propAssign (props : List TsProp) (k : String) (init : TsExpr)
    (h : getPropertyObj props "maxRetries" = some (.propAssign k init)) :
    extractMaxRetries props = .ok
      (match jsParseInt init.text with
       | some v => if 0 < v then some v else none
       | none => none) := by
  unfold extractMaxRetries
  rw [h]
  rfl

theorem extractMaxRetries_absent (props : List TsProp)
    (h : getPropertyObj props "maxRetries" = none) :
    extractMaxRetries props = .ok none := by
  unfold extractMaxRetries
  rw [h]

/-- C7: during extraction the maxRetries property is parsed with the JS
parseInt semantics and retained in the descriptor exactly when the parsed
value is a positive integer; absent property means a null retry count. -/
theorem parseEndpointFile_maxRetries (config : ResolvedConfig) (filePath : String)
    (sf : SourceFileAst) (call : CallExprAst) (method : String)
    (text : String) (props : List TsProp)
    (hfind : findEndpointCall sf.calls = some (call, method))
    (harg : call.args.head? = some (.objLit text props))
    (hok : (parseEndpointFile config filePath sf).isOk = true) :
    (∀ k init, getPropertyObj props "maxRetries" = some (.propAssign k init) →
       ∀ v : Int,
         ((parseEndpointFile config filePath sf).maxRetriesOf = some (some v) ↔
           (jsParseInt init.text = some v ∧ 0 < v)))
    ∧ (getPropertyObj props "maxRetries" = none →
       (parseEndpointFile config filePath sf).maxRetriesOf = some none) := by
  unfold parseEndpointFile at hok ⊢
  cases hde : sf.hasDefaultExport with
  | false => rw [hde] at hok; simp [ExtractResult.isOk] at hok
  | true =>
    rw [hde] at hok
    simp only [Bool.not_true, Bool.false_eq_true, if_false] at hok ⊢
    rw [hfind] at hok ⊢
    dsimp only at hok ⊢
    rw [harg] at hok ⊢
    dsimp only at hok ⊢
    cases hname : extractName props with
    | error msg => rw [hname] at hok; simp [ExtractResult.isOk] at hok
    | ok name =>
      rw [hname] at hok
      dsimp only at hok
      by_cases hne : name = ""
      · simp only [hne, if_pos rfl] at hok; simp [ExtractResult.isOk] at hok
      · simp only [if_neg hne] at hok ⊢
        cases hprot : extractProtected props with
        | error msg => rw [hprot] at hok; simp [ExtractResult.isOk] at hok
        | ok isProt =>
          rw [hprot] at hok
          dsimp only at hok
          cases hq : extractQuery props with
          | error msg => rw [hq] at hok; simp [ExtractResult.isOk] at hok
          | ok qsrc =>
            rw [hq] at hok
            dsimp only at hok
            cases htags : extractTags props with
            | error msg => rw [htags] at hok; simp [ExtractResult.isOk] at hok
            | ok pviv =>
              obtain ⟨pv, iv⟩ := pviv
              rw [htags] at hok
              dsimp only at hok
              cases hopt : extractOptimistic props with
              | error msg => rw [hopt] at hok; simp [ExtractResult.isOk] at hok
              | ok osrc =>
                rw [hopt] at hok
                dsimp only at hok
                cases hmr : extractMaxRetries props with
                | error msg => rw [hmr] at hok; simp [ExtractResult.isOk] at hok
                | ok mr =>
                  constructor
                  · intro k init hprop v
                    rw [extractMaxRetries_propAssign props k init hprop] at hmr
                    injection hmr with hmr
                    dsimp only [ExtractResult.maxRetriesOf]
                    cases hp : jsParseInt init.text with
                    | some w =>
                      rw [hp] at hmr
                      dsimp only at hmr
                      by_cases hw : 0 < w
                      · rw [if_pos hw] at hmr
                        subst hmr
                        constructor
                        · intro h₂
                          injection h₂ with h₂
                          injection h₂ with h₂
                          exact ⟨h₂ ▸ rfl, h₂ ▸ hw⟩
                        · intro ⟨h₂, h₃⟩
                          injection h₂ with h₂
                          rw [h₂]
                      · rw [if_neg hw] at hmr
                        subst hmr
                        constructor
                        · intro h₂; injection h₂ with h₂; exact absurd h₂ (by simp)
                        · intro ⟨h₂, h₃⟩
                          injection h₂ with h₂
                          exact absurd (h₂ ▸ h₃) hw
                    | none =>
                      rw [hp] at hmr
                      dsimp only at hmr
                      subst hmr
                      constructor
                      · intro h₂; injection h₂ with h₂; exact absurd h₂ (by simp)
                      · intro ⟨h₂, h₃⟩; exact absurd h₂ (by simp)
                  · intro hprop
                    rw [extractMaxRetries_absent props hprop] at hmr
                    injection hmr with hmr
                    subst hmr
                    rfl

/-- A sample call carrying a maxRetries property. -/
def sfRetryProps : List TsProp :=
  [.propAssign "name" (.other "StringLiteral" "\x22t\x22"),
   .propAssign "maxRetries" (.other "NumericLiteral" "3")]

/-- The sample endpoint call. -/
def sfRetryCall : CallExprAst :=
  { callee := .propAccess "endpoint" "get"
    typeArgs := []
    args := [.objLit "cfg" sfRetryProps] }

/-- A sample source file with a retry-carrying endpoint. -/
def sfRetry : SourceFileAst :=
  { hasDefaultExport := true, calls := [sfRetryCall], importDecls := [] }

theorem parseEndpointFile_maxRetries_witness :
    findEndpointCall sfRetry.calls = some (sfRetryCall, "get") ∧
    sfRetryCall.args.head? = some (.objLit "cfg" sfRetryProps) ∧
    (parseEndpointFile sampleConfig "tasks/list.ts" sfRetry).isOk = true ∧
    getPropertyObj sfRetryProps "maxRetries" =
      some (.propAssign "maxRetries" (.other "NumericLiteral" "3")) ∧
    ((parseEndpointFile sampleConfig "tasks/list.ts" sfRetry).maxRetriesOf =
        some (some 3) ↔
      (jsParseInt "3" = some 3 ∧ (0 : Int) < 3)) :=
  ⟨rfl, rfl, rfl, rfl,
   (parseEndpointFile_maxRetries sampleConfig "tasks/list.ts" sfRetry sfRetryCall
       "get" "cfg" sfRetryProps rfl rfl rfl).1 "maxRetries"
     (.other "NumericLiteral" "3") rfl 3⟩

end Ertk

namespace Ertk

/-- Whether a recognized key, when present, is a plain property assignment
(the only member form the OrThrow chain accepts). -/
def benignProp (props : List TsProp) (key : String) : Bool :=
  match getPropertyObj props key with
  | some (.propAssign _ _) => true
  | some _ => false
  | none => true

/-- Whether every recognized configuration property is a plain property
assignment, including provides/invalidates under an object-literal tags. -/
def benignProps (props : List TsProp) : Bool :=
  benignProp props "name" && benignProp props "protected" &&
  benignProp props "query" && benignProp props "optimistic" &&
  benignProp props "maxRetries" &&
  (match getPropertyObj props "tags" with
   | some (.propAssign _ (.objLit _ tprops)) =>
     benignProp tprops "provides" && benignProp tprops "invalidates"
   | some (.propAssign _ _) => true
   | some _ => false
   | none => true)

/-- Whether the configuration object that extraction will inspect has only
benign recognized properties. -/
def benignAst (sf : SourceFileAst) : Bool :=
  match findEndpointCall sf.calls with
  | some cm =>
    match cm.1.args.head? with
    | some (.objLit _ props) => benignProps props
    | _ => true
  | none => true

theorem extractName_ok_of_benign (props : List TsProp)
    (h : benignProp props "name" = true) : ∃ x, extractName props = .ok x := by
  unfold benignProp at h
  unfold extractName
  cases hg : getPropertyObj props "name" with
  | none => exact ⟨"", rfl⟩
  | some p =>
    rw [hg] at h
    cases p with
    | propAssign k init => exact ⟨_, rfl⟩
    | shorthand k => simp at h
    | methodDecl k t => simp at h
    | spread t => simp at h

theorem extractProtected_ok_of_benign (props : List TsProp)
    (h : benignProp props "protected" = true) :
    ∃ x, extractProtected props = .ok x := by
  unfold benignProp at h
  unfold extractProtected
  cases hg : getPropertyObj props "protected" with
  | none => exact ⟨true, rfl⟩
  | some p =>
    rw [hg] at h
    cases p with
    | propAssign k init => exact ⟨_, rfl⟩
    | shorthand k => simp at h
    | methodDecl k t => simp at h
    | spread t => simp at h

theorem extractQuery_ok_of_benign (props : List TsProp)
    (h : benignProp props "query" = true) : ∃ x, extractQuery props = .ok x := by
  unfold benignProp at h
  unfold extractQuery
  cases hg : getPropertyObj props "query" with
  | none => exact ⟨"", rfl⟩
  | some p =>
    rw [hg] at h
    cases p with
    | propAssign k init => exact ⟨_, rfl⟩
    | shorthand k => simp at h
    | methodDecl k t => simp at h
    | spread t => simp at h

theorem extractOptimistic_ok_of_benign (props : List TsProp)
    (h : benignProp props "optimistic" = true) :
    ∃ x, extractOptimistic props = .ok x := by
  unfold benignProp at h
  unfold extractOptimistic
  cases hg : getPropertyObj props "optimistic" with
  | none => exact ⟨none, rfl⟩
  | some p =>
    rw [hg] at h
    cases p with
    | propAssign k init => exact ⟨_, rfl⟩
    | shorthand k => simp at h
    | methodDecl k t => simp at h
    | spread t => simp at h

theorem extractMaxRetries_ok_of_benign (props : List TsProp)
    (h : benignProp props "maxRetries" = true) :
    ∃ x, extractMaxRetries props = .ok x := by
  unfold benignProp at h
  unfold extractMaxRetries
  cases hg : getPropertyObj props "maxRetries" with
  | none => exact ⟨none, rfl⟩
  | some p =>
    rw [hg] at h
    cases p with
    | propAssign k init => exact ⟨_, rfl⟩
    | shorthand k => simp at h
    | methodDecl k t => simp at h
    | spread t => simp at h

theorem extractTags_ok_of_benign (props : List TsProp)
    (h : (match getPropertyObj props "tags" with
         | some (.propAssign _ (.objLit _ tprops)) =>
           benignProp tprops "provides" && benignProp tprops "invalidates"
         | some (.propAssign _ _) => true
         | some _ => false
         | none => true) = true) :
    ∃ x, extractTags props = .ok x := by
  unfold extractTags
  cases hg : getPropertyObj props "tags" with
  | none => exact ⟨(none, none), rfl⟩
  | some p =>
    rw [hg] at h
    cases p with
    | propAssign k init =>
      dsimp only [initOfPropAssign]
      cases init with
      | objLit t tprops =>
        dsimp only
        rw [Bool.and_eq_true] at h
        have h₁ := h.1
        have h₂ := h.2
        unfold benignProp at h₁ h₂
        cases hp : getPropertyObj tprops "provides" with
        | none =>
          cases hi : getPropertyObj tprops "invalidates" with
          | none => exact ⟨_, rfl⟩
          | some q =>
            rw [hi] at h₂
            cases q with
            | propAssign k₂ i₂ => exact ⟨_, rfl⟩
            | shorthand k₂ => simp at h₂
            | methodDecl k₂ t₂ => simp at h₂
            | spread t₂ => simp at h₂
        | some q =>
          rw [hp] at h₁
          cases q with
          | propAssign k₂ i₂ =>
            cases hi : getPropertyObj tprops "invalidates" with
            | none => exact ⟨_, rfl⟩
            | some q₂ =>
              rw [hi] at h₂
              cases q₂ with
              | propAssign k₃ i₃ => exact ⟨_, rfl⟩
              | shorthand k₃ => simp at h₂
              | methodDecl k₃ t₃ => simp at h₂
              | spread t₃ => simp at h₂
          | shorthand k₂ => simp at h₁
          | methodDecl k₂ t₂ => simp at h₁
          | spread t₂ => simp at h₁
      | other kk tt => exact ⟨(none, none), rfl⟩
    | shorthand k => simp at h
    | methodDecl k t => simp at h
    | spread t => simp at h

end Ertk

namespace Ertk

/-- A source file whose name property is a shorthand member rather than a
property assignment. -/
def sfShorthandName : SourceFileAst :=
  { hasDefaultExport := true
    calls := [{ callee := .propAccess "endpoint" "get"
                typeArgs := []
                args := [.objLit "cfg" [.shorthand "name"]] }]
    importDecls := [] }

/-- Counterexample to C3 as stated: on a malformed recognized property (a
shorthand name member) the extractor throws instead of returning null with
a warning. -/
theorem parseEndpointFile_throws_on_shorthand :
    (parseEndpointFile sampleConfig "tasks/list.ts" sfShorthandName).isThrown = true := rfl

/-- C3 amended: on every syntax tree whose recognized configuration
properties are plain property assignments, the extractor returns a
descriptor or null plus a warning and never throws. -/
theorem parseEndpointFile_no_throw_on_benign (config : ResolvedConfig)
    (filePath : String) (sf : SourceFileAst) (h : benignAst sf = true) :
    (parseEndpointFile config filePath sf).isThrown = false := by
  unfold parseEndpointFile
  cases hde : sf.hasDefaultExport with
  | false => rfl
  | true =>
    simp only [Bool.not_true, Bool.false_eq_true, if_false]
    cases hfind : findEndpointCall sf.calls with
    | none => rfl
    | some cm =>
      obtain ⟨call, method⟩ := cm
      unfold benignAst at h
      rw [hfind] at h
      dsimp only at h ⊢
      cases harg : call.args.head? with
      | none => rfl
      | some e =>
        rw [harg] at h
        cases e with
        | other kk tt => rfl
        | objLit t props =>
          dsimp only at h ⊢
          simp only [benignProps, Bool.and_eq_true] at h
          obtain ⟨⟨⟨⟨⟨hn, hp⟩, hq⟩, ho⟩, hm⟩, ht⟩ := h
          obtain ⟨nm, hnm⟩ := extractName_ok_of_benign props hn
          rw [hnm]
          dsimp only
          by_cases hne : nm = ""
          · simp [hne, ExtractResult.isThrown]
          · simp only [if_neg hne]
            obtain ⟨pr, hpr⟩ := extractProtected_ok_of_benign props hp
            rw [hpr]
            dsimp only
            obtain ⟨qq, hqq⟩ := extractQuery_ok_of_benign props hq
            rw [hqq]
            dsimp only
            obtain ⟨tv, htv⟩ := extractTags_ok_of_benign props ht
            obtain ⟨tv₁, tv₂⟩ := tv
            rw [htv]
            dsimp only
            obtain ⟨ov, hov⟩ := extractOptimistic_ok_of_benign props ho
            rw [hov]
            dsimp only
            obtain ⟨mv, hmv⟩ := extractMaxRetries_ok_of_benign props hm
            rw [hmv]
            rfl

theorem parseEndpointFile_no_throw_on_benign_witness :
    benignAst sfRetry = true ∧
    (parseEndpointFile sampleConfig "tasks/list.ts" sfRetry).isThrown = false :=
  ⟨rfl, parseEndpointFile_no_throw_on_benign sampleConfig "tasks/list.ts" sfRetry rfl⟩

end Ertk

namespace Ertk

theorem mem_addToSet (l : List String) (x t : String) :
    t ∈ addToSet l x ↔ t ∈ l ∨ t = x := by
  unfold addToSet
  split
  · rename_i hc
    constructor
    · exact Or.inl
    · intro h
      rcases h with h | h
      · exact h
      · subst h; simpa using hc
  · simp

theorem foldl_tagStep_mem (toks : List String) (acc : List String) (t : String) :
    (t ∈ toks.foldl
        (fun acc tok => if tagTokenKept tok then addToSet acc tok else acc) acc) ↔
      t ∈ acc ∨ (t ∈ toks ∧ tagTokenKept t = true) := by
  induction toks generalizing acc with
  | nil => simp
  | cons tok toks ih =>
    rw [List.foldl_cons]
    by_cases hk : tagTokenKept tok
    · rw [if_pos hk, ih]
      rw [mem_addToSet]
      constructor
      · intro h
        rcases h with (h | h) | h
        · exact Or.inl h
        · subst h; exact Or.inr ⟨List.mem_cons_self _ _, hk⟩
        · exact Or.inr ⟨List.mem_cons_of_mem _ h.1, h.2⟩
      · intro h
        rcases h with h | ⟨hm, hkt⟩
        · exact Or.inl (Or.inl h)
        · rcases List.mem_cons.mp hm with h | h
          · exact Or.inl (Or.inr h)
          · exact Or.inr ⟨h, hkt⟩
    · rw [if_neg hk, ih]
      constructor
      · intro h
        rcases h with h | h
        · exact Or.inl h
        · exact Or.inr ⟨List.mem_cons_of_mem _ h.1, h.2⟩
      · intro h
        rcases h with h | ⟨hm, hkt⟩
        · exact Or.inl h
        · rcases List.mem_cons.mp hm with h | h
          · subst h; exact absurd hkt hk
          · exact Or.inr ⟨h, hkt⟩

/-- C8 amended: a scanned quoted token is added to the tag-type set exactly
when its first character is unchanged by upper-casing, which holds for
upper-case letters but also for characters without case such as digits and
the underscore; tokens beginning with a lower-case letter are the ones
excluded. -/
theorem extractTagTypes_mem (src : String) (tags : List String) (t : String) :
    t ∈ extractTagTypes (some src) tags ↔
      t ∈ tags ∨ (t ∈ scanQuoted src.data ∧ tagTokenKept t = true) := by
  unfold extractTagTypes
  dsimp only
  by_cases hs : src = ""
  · subst hs
    simp [scanQuoted, scanQuotedAux]
  · rw [if_neg hs]
    exact foldl_tagStep_mem _ tags t

/-- Counterexample to C8 as stated: the quoted token with first character
underscore is added to the tag-type set although the underscore is not an
upper-case letter. -/
theorem extractTagTypes_adds_underscore_token :
    "_x" ∈ extractTagTypes (some "\x22_x\x22") [] ∧
    "_x".data.head? = some (Char.ofNat 95) ∧
    (Char.ofNat 95).isUpper = false :=
  ⟨by decide, rfl, by decide⟩

theorem extractTagTypes_mem_witness :
    ("Task" ∈ extractTagTypes (some "[\x22Task\x22]") [] ↔
      "Task" ∈ ([] : List String) ∨
        ("Task" ∈ scanQuoted "[\x22Task\x22]".data ∧ tagTokenKept "Task" = true)) ∧
    "Task" ∈ extractTagTypes (some "[\x22Task\x22]") [] :=
  ⟨extractTagTypes_mem "[\x22Task\x22]" [] "Task", by decide⟩

end Ertk

namespace Ertk

/-- A line is tab-headed and its fourth character is not the letter opening
extraOptions (the discriminating facts for the generated line lists). -/
def TabbedNotExtra (l : String) : Prop :=
  l.data.head? = some (Char.ofNat 9) ∧ l.data.get? 3 ≠ some (Char.ofNat 101)

theorem singleShapeLines_shape (a b c : String) :
    ∀ l ∈ singleShapeLines a b c, TabbedNotExtra l := by
  intro l hl
  simp only [singleShapeLines, List.mem_cons, List.not_mem_nil, or_false] at hl
  rcases hl with rfl | rfl | rfl | rfl | rfl | rfl | rfl | rfl
  all_goals first
  | exact ⟨by decide, by decide⟩
  | exact ⟨rfl, fun he => absurd (show (some (Char.ofNat 9) : Option Char) =
      some (Char.ofNat 101) from he) (by decide)⟩

theorem multiItemCondLines_shape (d a b c : String) :
    ∀ l ∈ multiItemCondLines d a b c, TabbedNotExtra l := by
  intro l hl
  simp only [multiItemCondLines, List.mem_cons, List.not_mem_nil, or_false] at hl
  rcases hl with rfl | rfl | rfl | rfl | rfl | rfl | rfl | rfl | rfl
  all_goals first
  | exact ⟨by decide, by decide⟩
  | exact ⟨rfl, fun he => absurd (show (some (Char.ofNat 9) : Option Char) =
      some (Char.ofNat 101) from he) (by decide)⟩

theorem multiItemPlainLines_shape (a b c : String) :
    ∀ l ∈ multiItemPlainLines a b c, TabbedNotExtra l := by
  intro l hl
  simp only [multiItemPlainLines, List.mem_cons, List.not_mem_nil, or_false] at hl
  rcases hl with rfl | rfl | rfl | rfl | rfl | rfl | rfl
  all_goals first
  | exact ⟨by decide, by decide⟩
  | exact ⟨rfl, fun he => absurd (show (some (Char.ofNat 9) : Option Char) =
      some (Char.ofNat 101) from he) (by decide)⟩

theorem multiUpdateLines_shape (u : String) :
    ∀ l ∈ multiUpdateLines u, TabbedNotExtra l := by
  intro l hl
  unfold multiUpdateLines at hl
  cases h₁ : scanForG ("target:".data) matchTargetAt u.data with
  | none => rw [h₁] at hl; simp at hl
  | some target =>
    rw [h₁] at hl
    dsimp only at hl
    cases h₂ : scanForG ("args:".data) (matchFnBodyAt lookaheadUpdateOrCondition) u.data with
    | none => rw [h₂] at hl; simp at hl
    | some argsC =>
      rw [h₂] at hl
      dsimp only at hl
      cases h₃ : scanForG ("update:".data) (matchFnBodyAt lookaheadCloseBraceEnd) u.data with
      | none => rw [h₃] at hl; simp at hl
      | some updC =>
        rw [h₃] at hl
        dsimp only at hl
        cases h₄ : scanForG ("condition:".data) matchConditionAt u.data with
        | none =>
          rw [h₄] at hl
          exact multiItemPlainLines_shape _ _ _ l hl
        | some condC =>
          rw [h₄] at hl
          exact multiItemCondLines_shape _ _ _ _ l hl

theorem mem_foldl_append {α β : Type} (f : α → List β) :
    ∀ (xs : List α) (acc : List β) (b : β),
      (b ∈ xs.foldl (fun acc x => acc ++ f x) acc ↔ b ∈ acc ∨ ∃ x ∈ xs, b ∈ f x) := by
  intro xs
  induction xs with
  | nil => simp
  | cons x xs ih =>
    intro acc b
    rw [List.foldl_cons, ih]
    simp only [List.mem_append, List.mem_cons]
    constructor
    · rintro ((h | h) | ⟨y, hy, hb⟩)
      · exact Or.inl h
      · exact Or.inr ⟨x, Or.inl rfl, h⟩
      · exact Or.inr ⟨y, Or.inr hy, hb⟩
    · rintro (h | ⟨y, (rfl | hy), hb⟩)
      · exact Or.inl (Or.inl h)
      · exact Or.inl (Or.inr hb)
      · exact Or.inr ⟨y, hy, hb⟩

theorem generateOnQueryStarted_shape (ep : ParsedEndpoint) (ls : List String)
    (h : generateOnQueryStarted ep = some ls) : ∀ l ∈ ls, TabbedNotExtra l := by
  unfold generateOnQueryStarted at h
  cases hop : ep.optimisticSource with
  | none => rw [hop] at h; exact absurd h (by simp)
  | some src =>
    rw [hop] at h
    dsimp only at h
    by_cases hsm : (strIncludes src "target:" && !strIncludes src "updates:") = true
    · rw [if_pos hsm] at h
      cases h₁ : scanForG ("target:".data) matchTargetAt src.data with
      | none => rw [h₁] at h; exact absurd h (by simp)
      | some target =>
        rw [h₁] at h
        dsimp only at h
        cases h₂ : scanForG ("args:".data) (matchFnBodyAt lookaheadUpdate) src.data with
        | none => rw [h₂] at h; exact absurd h (by simp)
        | some argsC =>
          rw [h₂] at h
          dsimp only at h
          cases h₃ : scanForG ("update:".data) (matchFnBodyAt lookaheadCloseBraceEnd) src.data with
          | none => rw [h₃] at h; exact absurd h (by simp)
          | some updC =>
            rw [h₃] at h
            dsimp only at h
            injection h with h
            subst h
            exact singleShapeLines_shape _ _ _
    · rw [if_neg hsm] at h
      by_cases hmu : strIncludes src "updates:" = true
      · rw [if_pos hmu] at h
        simp only [List.append_assoc, List.cons_append, List.nil_append,
          List.isEmpty_cons, Bool.false_eq_true, if_false] at h
        injection h with h
        subst h
        intro l hl
        simp only [List.mem_cons, List.mem_append, List.not_mem_nil, or_false] at hl
        rcases hl with rfl | rfl | hl | rfl | rfl
        · exact ⟨rfl, fun he => absurd (show (some (Char.ofNat 97) : Option Char) =
            some (Char.ofNat 101) from he) (by decide)⟩
        · exact ⟨by decide, by decide⟩
        · cases hu : extractUpdatesArray src with
          | none => rw [hu] at hl; simp at hl
          | some updates =>
            rw [hu] at hl
            dsimp only at hl
            rcases (mem_foldl_append multiUpdateLines updates [] l).mp hl with
              h₂ | ⟨u, hu₂, hb⟩
            · simp at h₂
            · exact multiUpdateLines_shape u l hb
        · exact ⟨by decide, by decide⟩
        · exact ⟨by decide, by decide⟩
      · rw [if_neg hmu] at h
        exact absurd h (by simp)

end Ertk

namespace Ertk

theorem getLast_append_lit (s p : String) (hp : p.data ≠ []) :
    (s ++ p).data.getLast? = p.data.getLast? := by
  rw [String.data_append]
  exact List.getLast?_append_of_ne_nil _ hp

theorem extraOptionsLine_getLast (v : Int) :
    (extraOptionsLine v).data.getLast? = some (Char.ofNat 44) := by
  unfold extraOptionsLine
  rw [getLast_append_lit _ _ (by decide)]
  rfl

theorem genDef_head_tab (ep : ParsedEndpoint) :
    ∀ l ∈ generateEndpointDef ep, l.data.head? = some (Char.ofNat 9) := by
  intro l hl
  unfold generateEndpointDef at hl
  simp only [List.mem_append] at hl
  rcases hl with ((((((hl | hl) | hl) | hl) | hl) | hl) | hl)
  · simp only [List.mem_singleton] at hl
    subst hl; rfl
  · split at hl
    · simp at hl
    · simp only [List.mem_singleton] at hl
      subst hl; rfl
  · cases hps : ep.providesTagsSource with
    | none => rw [hps] at hl; simp at hl
    | some s =>
      rw [hps] at hl
      dsimp only at hl
      split at hl
      · simp at hl
      · simp only [List.mem_singleton] at hl
        subst hl; rfl
  · cases his : ep.invalidatesTagsSource with
    | none => rw [his] at hl; simp at hl
    | some s =>
      rw [his] at hl
      dsimp only at hl
      split at hl
      · simp at hl
      · simp only [List.mem_singleton] at hl
        subst hl; rfl
  · cases hos : ep.optimisticSource with
    | none => rw [hos] at hl; simp at hl
    | some s =>
      rw [hos] at hl
      dsimp only at hl
      split at hl
      · simp at hl
      · cases hoq : generateOnQueryStarted ep with
        | none => rw [hoq] at hl; simp at hl
        | some ls =>
          rw [hoq] at hl
          dsimp only at hl
          exact (generateOnQueryStarted_shape ep ls hoq l hl).1
  · cases hmr : ep.maxRetries with
    | none => rw [hmr] at hl; simp at hl
    | some v =>
      rw [hmr] at hl
      dsimp only at hl
      split at hl
      · simp only [List.mem_singleton] at hl
        subst hl; rfl
      · simp at hl
  · simp only [List.mem_singleton] at hl
    subst hl; rfl

theorem extraOptions_only_for_retries (ep : ParsedEndpoint) (v : Int)
    (h : extraOptionsLine v ∈ generateEndpointDef ep) :
    ∃ w, ep.maxRetries = some w ∧ 0 < w := by
  unfold generateEndpointDef at h
  simp only [List.mem_append] at h
  rcases h with ((((((hl | hl) | hl) | hl) | hl) | hl) | hl)
  · simp only [List.mem_singleton] at hl
    have e := congrArg (fun s => s.data.getLast?) hl
    dsimp only at e
    rw [extraOptionsLine_getLast, getLast_append_lit _ _ (by decide)] at e
    exact absurd e (by decide)
  · split at hl
    · simp at hl
    · simp only [List.mem_singleton] at hl
      exact absurd (show (some (Char.ofNat 101) : Option Char) =
        some (Char.ofNat 113) from congrArg (fun s => s.data.get? 3) hl) (by decide)
  · cases hps : ep.providesTagsSource with
    | none => rw [hps] at hl; simp at hl
    | some s =>
      rw [hps] at hl
      dsimp only at hl
      split at hl
      · simp at hl
      · simp only [List.mem_singleton] at hl
        exact absurd (show (some (Char.ofNat 101) : Option Char) =
          some (Char.ofNat 112) from congrArg (fun s => s.data.get? 3) hl) (by decide)
  · cases his : ep.invalidatesTagsSource with
    | none => rw [his] at hl; simp at hl
    | some s =>
      rw [his] at hl
      dsimp only at hl
      split at hl
      · simp at hl
      · simp only [List.mem_singleton] at hl
        exact absurd (show (some (Char.ofNat 101) : Option Char) =
          some (Char.ofNat 105) from congrArg (fun s => s.data.get? 3) hl) (by decide)
  · cases hos : ep.optimisticSource with
    | none => rw [hos] at hl; simp at hl
    | some s =>
      rw [hos] at hl
      dsimp only at hl
      split at hl
      · simp at hl
      · cases hoq : generateOnQueryStarted ep with
        | none => rw [hoq] at hl; simp at hl
        | some ls =>
          rw [hoq] at hl
          dsimp only at hl
          exact absurd (show (extraOptionsLine v).data.get? 3 =
              some (Char.ofNat 101) from rfl)
            (generateOnQueryStarted_shape ep ls hoq _ hl).2
  · cases hmr : ep.maxRetries with
    | none => rw [hmr] at hl; simp at hl
    | some w =>
      rw [hmr] at hl
      dsimp only at hl
      split at hl
      · rename_i hw
        exact ⟨w, rfl, hw⟩
      · simp at hl
  · simp only [List.mem_singleton] at hl
    exact absurd (show (some (Char.ofNat 101) : Option Char) =
      some (Char.ofNat 41) from congrArg (fun s => s.data.get? 3) hl) (by decide)

theorem extraOptions_of_retries (ep : ParsedEndpoint) (v : Int)
    (hm : ep.maxRetries = some v) (hv : 0 < v) :
    extraOptionsLine v ∈ generateEndpointDef ep := by
  unfold generateEndpointDef
  simp only [List.mem_append, hm, hv, if_pos]
  exact Or.inl (Or.inr (by simp))

end Ertk

namespace Ertk

theorem retryImport_mem_of_retries (endpoints : List ParsedEndpoint)
    (config : ResolvedConfig) (h : hasAnyRetries endpoints = true) :
    retryImportLine ∈ apiLines endpoints config := by
  unfold apiLines
  rw [if_pos h]
  simp [List.mem_append]

theorem retryImport_not_mem_without_retries (endpoints : List ParsedEndpoint)
    (config : ResolvedConfig) (h : hasAnyRetries endpoints = false) :
    retryImportLine ∉ apiLines endpoints config := by
  intro hmem
  unfold apiLines at hmem
  rw [if_neg (by simp [h])] at hmem
  simp only [List.mem_append, List.mem_cons, List.mem_singleton,
    List.not_mem_nil, or_false, List.mem_map] at hmem
  rcases hmem with (((((((((hl | hl) | hl) | hl) | hl) | hl) | hl) | hl) | hl) | hl) | hl
  · exact absurd hl (by decide)
  · exact absurd hl (by decide)
  · obtain ⟨pts, _, hl⟩ := hl
    exact absurd (show (some (Char.ofNat 123) : Option Char) =
      some (Char.ofNat 116) from congrArg (fun s => s.data.get? 7) hl.symm) (by decide)
  · exact absurd hl (by decide)
  · rcases hl with hl | hl
    · exact absurd hl (by decide)
    · exact absurd hl (by decide)
  · have hb : baseQueryLine endpoints config =
        "\tbaseQuery: " ++ baseQueryExpr config ++ "," := by
      simp [baseQueryLine, baseQueryPlainLine, h]
    rw [hb] at hl
    exact absurd (show (some (Char.ofNat 105) : Option Char) =
      some (Char.ofNat 9) from congrArg (fun s => s.data.head?) hl) (by decide)
  · rcases hl with hl | hl | hl | hl
    · exact absurd (show (some (Char.ofNat 105) : Option Char) =
        some (Char.ofNat 9) from congrArg (fun s => s.data.head?)
          (show retryImportLine = tagTypesLine endpoints from hl)) (by decide)
    · exact absurd hl (by decide)
    · exact absurd hl (by decide)
    · exact absurd hl (by decide)
  · rcases (mem_foldl_append generateEndpointDef endpoints [] retryImportLine).mp hl with
      h₂ | ⟨ep, _, hb⟩
    · simp at h₂
    · exact absurd (genDef_head_tab ep _ hb) (by decide)
  · rcases hl with hl | hl | hl | hl
    · exact absurd hl (by decide)
    · exact absurd hl (by decide)
    · exact absurd hl (by decide)
    · exact absurd hl (by decide)
  · obtain ⟨ep, _, hl⟩ := hl
    exact absurd (show (some (Char.ofNat 105) : Option Char) =
      some (Char.ofNat 9) from congrArg (fun s => s.data.head?) hl.symm) (by decide)
  · exact absurd hl (by decide)

end Ertk

namespace Ertk

/-- C6: the generated api artifact includes the retry-capable base
transport (retry import line and retry wrapping of the base query with a
zero-retry default) exactly when some descriptor carries a positive retry
count, and exactly the descriptors with a positive retry count get an
extraOptions maxRetries annotation line in their endpoint definition. -/
theorem apiLines_retry_characterization (endpoints : List ParsedEndpoint)
    (config : ResolvedConfig) :
    (retryImportLine ∈ apiLines endpoints config ↔ hasAnyRetries endpoints = true)
    ∧ (hasAnyRetries endpoints = true →
        baseQueryLine endpoints config = baseQueryRetryLine config)
    ∧ (hasAnyRetries endpoints = false →
        baseQueryLine endpoints config = baseQueryPlainLine config)
    ∧ (∀ ep ∈ endpoints, ∀ v : Int, ep.maxRetries = some v → 0 < v →
        extraOptionsLine v ∈ generateEndpointDef ep)
    ∧ (∀ ep ∈ endpoints, ∀ v : Int, extraOptionsLine v ∈ generateEndpointDef ep →
        ∃ w, ep.maxRetries = some w ∧ 0 < w) := by
  refine ⟨⟨?_, retryImport_mem_of_retries endpoints config⟩, ?_, ?_, ?_, ?_⟩
  · intro hm
    cases hr : hasAnyRetries endpoints with
    | true => rfl
    | false => exact absurd hm (retryImport_not_mem_without_retries endpoints config hr)
  · intro h
    simp [baseQueryLine, h]
  · intro h
    simp [baseQueryLine, h]
  · intro ep _ v hm hv
    exact extraOptions_of_retries ep v hm hv
  · intro ep _ v h
    exact extraOptions_only_for_retries ep v h

/-- A retry-carrying sample descriptor. -/
def sampleRetryEndpoint : ParsedEndpoint :=
  { sampleEndpoint "r" "get" "/api/r" true with maxRetries := some 2 }

theorem apiLines_retry_characterization_witness :
    hasAnyRetries [sampleRetryEndpoint] = true ∧
    retryImportLine ∈ apiLines [sampleRetryEndpoint] sampleConfig ∧
    baseQueryLine [sampleRetryEndpoint] sampleConfig = baseQueryRetryLine sampleConfig ∧
    extraOptionsLine 2 ∈ generateEndpointDef sampleRetryEndpoint :=
  ⟨by decide,
   (apiLines_retry_characterization [sampleRetryEndpoint] sampleConfig).1.mpr (by decide),
   (apiLines_retry_characterization [sampleRetryEndpoint] sampleConfig).2.1 (by decide),
   (apiLines_retry_characterization [sampleRetryEndpoint] sampleConfig).2.2.2.1
     sampleRetryEndpoint (List.mem_singleton.mpr rfl) 2 rfl (by decide)⟩

end Ertk
